import Mathlib

set_option maxHeartbeats 2000000

/-! Calendar arithmetic modelling the ECMAScript Date internals
(proleptic Gregorian calendar, days counted from 1970-01-01),
following Hinnant's civil-from-days / days-from-civil algorithms. -/

/-- Leap-year test (proleptic Gregorian), as in ECMAScript DaysInYear. -/
def isLeap (y : Int) : Bool :=
  decide (y % 4 = 0 ∧ (y % 100 ≠ 0 ∨ y % 400 = 0))

/-- Number of days in month `m` (1-based) of year `y`. -/
def daysInMonth (y m : Int) : Int :=
  if m = 2 then (if isLeap y then 29 else 28)
  else if m = 4 ∨ m = 6 ∨ m = 9 ∨ m = 11 then 30 else 31

/-- Day-of-era of day `doy` of March-based year `yoe` within a 400-year era. -/
def doeOf (yoe doy : Int) : Int := 365 * yoe + yoe / 4 - yoe / 100 + doy

/-- Recover the March-based year-of-era from a day-of-era (Hinnant's formula). -/
def yoeFromDoe (doe : Int) : Int :=
  (doe - doe / 1460 + doe / 36524 - doe / 146096) / 365

/-- Day of the March-based year for March-based month `mp` (0..11) and day `d`.
Linear in `d`, so out-of-range days roll over, exactly like ECMAScript MakeDay. -/
def doyFromMp (mp d : Int) : Int := (153 * mp + 2) / 5 + d - 1

/-- Day number (days since the epoch) of the civil date `(y, m, d)`;
`m` must be in 1..12; `d` may lie outside the month (the count is linear in `d`). -/
def daysFromCivil (y m d : Int) : Int :=
  let yAdj : Int := if m ≤ 2 then y - 1 else y
  let mp : Int := if m ≤ 2 then m + 9 else m - 3
  (yAdj / 400) * 146097 + doeOf (yAdj % 400) (doyFromMp mp d) - 719468

/-- Civil date `(y, m, d)` (month 1-based) of a day number. -/
def civilFromDays (z0 : Int) : Int × Int × Int :=
  let z : Int := z0 + 719468
  let era : Int := z / 146097
  let doe : Int := z % 146097
  let yoe : Int := yoeFromDoe doe
  let doy : Int := doe - doeOf yoe 0
  let mp : Int := (5 * doy + 2) / 153
  let d : Int := doy - doyFromMp mp 1
  let m : Int := if mp < 10 then mp + 3 else mp - 9
  (yoe + era * 400 + (if m ≤ 2 then 1 else 0), m, d + 1)

example : civilFromDays 0 = (1970, 1, 1) := by decide
example : civilFromDays (daysFromCivil 2026 2 28) = (2026, 2, 28) := by decide
example : daysFromCivil 2026 1 31 + 31 = daysFromCivil 2026 3 3 := by decide

/-- The era-relative leap bit: March-based year `yoe` ends with a Feb 29. -/
def leapBitYoe (yoe : Int) : Int :=
  if yoe % 4 = 3 ∧ (yoe % 100 ≠ 99 ∨ yoe = 399) then 1 else 0

/-- Length of March-based month `mp` (0 = March, …, 11 = February) in
March-based year `yoe` of an era. -/
def marchMonthLen (yoe mp : Int) : Int :=
  if mp = 11 then 28 + leapBitYoe yoe
  else if mp = 1 ∨ mp = 3 ∨ mp = 6 ∨ mp = 8 then 30 else 31

theorem yoe_recovery (yoe doy : Int) (h0 : 0 ≤ yoe) (h1 : yoe < 400) (h2 : 0 ≤ doy)
    (h3 : doy ≤ 364 + leapBitYoe yoe) :
    yoeFromDoe (doeOf yoe doy) = yoe := by
  unfold leapBitYoe at h3
  have h3' : doy ≤ 364 ∨ (doy = 365 ∧ yoe % 4 = 3 ∧ (yoe % 100 ≠ 99 ∨ yoe = 399)) := by
    by_cases hc : yoe % 4 = 3 ∧ (yoe % 100 ≠ 99 ∨ yoe = 399) <;> simp [hc] at h3 <;> omega
  clear h3
  unfold yoeFromDoe doeOf
  interval_cases yoe <;> omega

theorem leapBit_eq (era yoe : Int) (h0 : 0 ≤ yoe) (h1 : yoe < 400) :
    leapBitYoe yoe = (if isLeap (era * 400 + yoe + 1) then 1 else 0) := by
  unfold leapBitYoe isLeap
  simp only [decide_eq_true_eq]
  split_ifs <;> omega

theorem civil_core (era yoe mp dd : Int) (h0 : 0 ≤ yoe) (h1 : yoe < 400)
    (h2 : 0 ≤ mp) (h3 : mp ≤ 11) (h4 : 1 ≤ dd) (h5 : dd ≤ marchMonthLen yoe mp) :
    civilFromDays (era * 146097 + doeOf yoe (doyFromMp mp dd) - 719468)
      = (yoe + era * 400 + (if 10 ≤ mp then 1 else 0),
         (if mp < 10 then mp + 3 else mp - 9), dd) := by
  have hdoy : 0 ≤ doyFromMp mp dd ∧ doyFromMp mp dd ≤ 364 + leapBitYoe yoe := by
    unfold doyFromMp marchMonthLen leapBitYoe at *
    interval_cases mp <;> split_ifs at h5 ⊢ <;> omega
  set doy := doyFromMp mp dd with hdoyDef
  have hdoe : 0 ≤ doeOf yoe doy ∧ doeOf yoe doy < 146097 := by
    unfold doeOf leapBitYoe at *
    split_ifs at hdoy <;> omega
  have hyrec : yoeFromDoe (doeOf yoe doy) = yoe :=
    yoe_recovery _ _ h0 h1 hdoy.1 hdoy.2
  simp only [civilFromDays]
  have e1 : era * 146097 + doeOf yoe doy - 719468 + 719468
      = era * 146097 + doeOf yoe doy := by ring
  rw [e1]
  have e2 : (era * 146097 + doeOf yoe doy) / 146097 = era := by omega
  have e3 : (era * 146097 + doeOf yoe doy) % 146097 = doeOf yoe doy := by omega
  rw [e2, e3, hyrec]
  have e4 : doeOf yoe doy - doeOf yoe 0 = doy := by unfold doeOf; ring
  rw [e4]
  have e5 : (5 * doy + 2) / 153 = mp := by
    rw [hdoyDef]
    unfold doyFromMp marchMonthLen leapBitYoe at *
    interval_cases mp <;> split_ifs at h5 <;> omega
  rw [e5]
  have e6 : doy - doyFromMp mp 1 = dd - 1 := by rw [hdoyDef]; unfold doyFromMp; ring
  rw [e6]
  simp only [Prod.mk.injEq]
  refine ⟨?_, trivial, by ring⟩
  split_ifs <;> omega

theorem civil_roundtrip (y m d : Int) (hm1 : 1 ≤ m) (hm2 : m ≤ 12) (hd1 : 1 ≤ d)
    (hd2 : d ≤ daysInMonth y m) :
    civilFromDays (daysFromCivil y m d) = (y, m, d) := by
  have hsplit : ∀ x : Int, x = (x / 400) * 400 + x % 400 ∧ 0 ≤ x % 400 ∧ x % 400 < 400 := by
    intro x; omega
  unfold daysInMonth at hd2
  simp only [daysFromCivil]
  interval_cases m <;> norm_num at hd2 ⊢
  case _ => -- m = 1
    rw [civil_core ((y-1)/400) ((y-1)%400) 10 d (by omega) (by omega) (by omega) (by omega)
      (by omega) (by unfold marchMonthLen; norm_num; omega)]
    simp only [Prod.mk.injEq]
    norm_num
    omega
  case _ => -- m = 2
    have hlb := leapBit_eq ((y-1)/400) ((y-1)%400) (by omega) (by omega)
    have hyy : (y-1)/400 * 400 + (y-1) % 400 + 1 = y := by omega
    rw [hyy] at hlb
    rw [civil_core ((y-1)/400) ((y-1)%400) 11 d (by omega) (by omega) (by omega) (by omega)
      (by omega) (by unfold marchMonthLen; norm_num; split_ifs at hd2 hlb ⊢ <;> omega)]
    simp only [Prod.mk.injEq]
    norm_num
    omega
  case _ => -- m = 3
    rw [civil_core (y/400) (y%400) 0 d (by omega) (by omega) (by omega) (by omega)
      (by omega) (by unfold marchMonthLen; norm_num; omega)]
    simp only [Prod.mk.injEq]
    norm_num
    omega
  case _ => -- m = 4
    rw [civil_core (y/400) (y%400) 1 d (by omega) (by omega) (by omega) (by omega)
      (by omega) (by unfold marchMonthLen; norm_num; omega)]
    simp only [Prod.mk.injEq]
    norm_num
    omega
  case _ => -- m = 5
    rw [civil_core (y/400) (y%400) 2 d (by omega) (by omega) (by omega) (by omega)
      (by omega) (by unfold marchMonthLen; norm_num; omega)]
    simp only [Prod.mk.injEq]
    norm_num
    omega
  case _ => -- m = 6
    rw [civil_core (y/400) (y%400) 3 d (by omega) (by omega) (by omega) (by omega)
      (by omega) (by unfold marchMonthLen; norm_num; omega)]
    simp only [Prod.mk.injEq]
    norm_num
    omega
  case _ => -- m = 7
    rw [civil_core (y/400) (y%400) 4 d (by omega) (by omega) (by omega) (by omega)
      (by omega) (by unfold marchMonthLen; norm_num; omega)]
    simp only [Prod.mk.injEq]
    norm_num
    omega
  case _ => -- m = 8
    rw [civil_core (y/400) (y%400) 5 d (by omega) (by omega) (by omega) (by omega)
      (by omega) (by unfold marchMonthLen; norm_num; omega)]
    simp only [Prod.mk.injEq]
    norm_num
    omega
  case _ => -- m = 9
    rw [civil_core (y/400) (y%400) 6 d (by omega) (by omega) (by omega) (by omega)
      (by omega) (by unfold marchMonthLen; norm_num; omega)]
    simp only [Prod.mk.injEq]
    norm_num
    omega
  case _ => -- m = 10
    rw [civil_core (y/400) (y%400) 7 d (by omega) (by omega) (by omega) (by omega)
      (by omega) (by unfold marchMonthLen; norm_num; omega)]
    simp only [Prod.mk.injEq]
    norm_num
    omega
  case _ => -- m = 11
    rw [civil_core (y/400) (y%400) 8 d (by omega) (by omega) (by omega) (by omega)
      (by omega) (by unfold marchMonthLen; norm_num; omega)]
    simp only [Prod.mk.injEq]
    norm_num
    omega
  case _ => -- m = 12
    rw [civil_core (y/400) (y%400) 9 d (by omega) (by omega) (by omega) (by omega)
      (by omega) (by unfold marchMonthLen; norm_num; omega)]
    simp only [Prod.mk.injEq]
    norm_num
    omega

theorem yoeFromDoe_bounds (doe : Int) (h1 : 0 ≤ doe) (h2 : doe < 146097) :
    0 ≤ yoeFromDoe doe ∧ yoeFromDoe doe < 400 := by
  unfold yoeFromDoe; omega

theorem doeOf_step (yoe : Int) (h : 0 ≤ yoe) (h2 : yoe ≤ 398) :
    doeOf (yoe + 1) 0 = doeOf yoe 0 + 365 + leapBitYoe yoe := by
  unfold doeOf leapBitYoe
  split_ifs <;> omega

theorem doe_coverage_aux (n : Nat) : (n : Int) ≤ 398 → ∀ doe : Int, 0 ≤ doe →
    doe < doeOf ((n : Int) + 1) 0 →
    ∃ yoe, 0 ≤ yoe ∧ yoe ≤ (n : Int) ∧ doeOf yoe 0 ≤ doe ∧
      doe ≤ doeOf yoe 0 + 364 + leapBitYoe yoe := by
  induction n with
  | zero =>
    intro _ doe h1 h2
    norm_num at h2
    have e1 : doeOf 1 0 = 365 := by decide
    have e2 : doeOf 0 0 = 0 := by decide
    have e3 : leapBitYoe 0 = 0 := by decide
    exact ⟨0, by omega, by omega, by omega, by omega⟩
  | succ k ih =>
    intro hk doe h1 h2
    push_cast at hk h2 ⊢
    by_cases hc : doe < doeOf ((k : Int) + 1) 0
    · obtain ⟨yoe, a, b, c, d⟩ := ih (by omega) doe h1 hc
      exact ⟨yoe, a, by omega, c, d⟩
    · push_neg at hc
      have hstep := doeOf_step ((k : Int) + 1) (by omega) (by omega)
      exact ⟨(k : Int) + 1, by omega, by omega, hc, by omega⟩

theorem doe_coverage (doe : Int) (h1 : 0 ≤ doe) (h2 : doe < 146097) :
    ∃ yoe, 0 ≤ yoe ∧ yoe < 400 ∧ doeOf yoe 0 ≤ doe ∧
      doe ≤ doeOf yoe 0 + 364 + leapBitYoe yoe := by
  have h399 : doeOf 399 0 = 145731 := by decide
  have h399b : leapBitYoe 399 = 1 := by decide
  by_cases hc : doe < doeOf 399 0
  · obtain ⟨yoe, a, b, c, d⟩ :=
      doe_coverage_aux 398 (by norm_num) doe h1 (by norm_num; omega)
    refine ⟨yoe, a, ?_, c, d⟩
    push_cast at b
    omega
  · exact ⟨399, by omega, by omega, by omega, by omega⟩

theorem doy_bounds (doe : Int) (h1 : 0 ≤ doe) (h2 : doe < 146097) :
    0 ≤ doe - doeOf (yoeFromDoe doe) 0 ∧
    doe - doeOf (yoeFromDoe doe) 0 ≤ 364 + leapBitYoe (yoeFromDoe doe) := by
  obtain ⟨yoe, a, b, c, d⟩ := doe_coverage doe h1 h2
  have hdoe : doe = doeOf yoe (doe - doeOf yoe 0) := by unfold doeOf; ring
  have hrec : yoeFromDoe doe = yoe := by
    conv_lhs => rw [hdoe]
    exact yoe_recovery yoe (doe - doeOf yoe 0) a b (by omega) (by omega)
  rw [hrec]
  omega

theorem mp_dd_valid (yoe doy : Int) (h1 : 0 ≤ doy) (h2 : doy ≤ 364 + leapBitYoe yoe) :
    0 ≤ (5 * doy + 2) / 153 ∧ (5 * doy + 2) / 153 ≤ 11 ∧
    1 ≤ doy - doyFromMp ((5 * doy + 2) / 153) 1 + 1 ∧
    doy - doyFromMp ((5 * doy + 2) / 153) 1 + 1
      ≤ marchMonthLen yoe ((5 * doy + 2) / 153) := by
  unfold leapBitYoe at h2
  have hmp : 0 ≤ (5 * doy + 2) / 153 ∧ (5 * doy + 2) / 153 ≤ 11 := by
    split_ifs at h2 <;> omega
  have hdd1 : 1 ≤ doy - doyFromMp ((5 * doy + 2) / 153) 1 + 1 := by
    unfold doyFromMp
    omega
  have hdd2 : doy - doyFromMp ((5 * doy + 2) / 153) 1 + 1
      ≤ marchMonthLen yoe ((5 * doy + 2) / 153) := by
    unfold doyFromMp marchMonthLen leapBitYoe
    rcases hmp with ⟨ha, hb⟩
    set mp := (5 * doy + 2) / 153 with hm
    interval_cases mp <;> split_ifs at h2 ⊢ <;> omega
  exact ⟨hmp.1, hmp.2, hdd1, hdd2⟩

theorem civil_decomp (z : Int) : ∃ era yoe mp dd,
    0 ≤ yoe ∧ yoe < 400 ∧ 0 ≤ mp ∧ mp ≤ 11 ∧ 1 ≤ dd ∧ dd ≤ marchMonthLen yoe mp ∧
    z = era * 146097 + doeOf yoe (doyFromMp mp dd) - 719468 := by
  refine ⟨(z + 719468) / 146097, yoeFromDoe ((z + 719468) % 146097),
    (5 * ((z + 719468) % 146097 - doeOf (yoeFromDoe ((z + 719468) % 146097)) 0) + 2) / 153,
    ((z + 719468) % 146097 - doeOf (yoeFromDoe ((z + 719468) % 146097)) 0) -
      doyFromMp ((5 * ((z + 719468) % 146097 -
        doeOf (yoeFromDoe ((z + 719468) % 146097)) 0) + 2) / 153) 1 + 1, ?_⟩
  have hdoe : 0 ≤ (z + 719468) % 146097 ∧ (z + 719468) % 146097 < 146097 := by omega
  have hyb := yoeFromDoe_bounds _ hdoe.1 hdoe.2
  have hdb := doy_bounds _ hdoe.1 hdoe.2
  have hmd := mp_dd_valid (yoeFromDoe ((z + 719468) % 146097)) _ hdb.1 hdb.2
  refine ⟨hyb.1, hyb.2, hmd.1, hmd.2.1, hmd.2.2.1, hmd.2.2.2, ?_⟩
  unfold doeOf doyFromMp at *
  omega

theorem civilFromDays_valid (z : Int) :
    1 ≤ (civilFromDays z).2.1 ∧ (civilFromDays z).2.1 ≤ 12 ∧
    1 ≤ (civilFromDays z).2.2 ∧
    (civilFromDays z).2.2 ≤ daysInMonth (civilFromDays z).1 (civilFromDays z).2.1 := by
  obtain ⟨era, yoe, mp, dd, h0, h1, h2, h3, h4, h5, hz⟩ := civil_decomp z
  rw [hz, civil_core era yoe mp dd h0 h1 h2 h3 h4 h5]
  dsimp only
  by_cases hmp : mp = 11
  · subst hmp
    have hlb := leapBit_eq era yoe h0 h1
    have harg : yoe + era * 400 + 1 = era * 400 + yoe + 1 := by ring
    unfold marchMonthLen at h5
    norm_num at h5 ⊢
    unfold daysInMonth
    norm_num [harg]
    split_ifs at hlb ⊢ <;> omega
  · unfold marchMonthLen at h5
    unfold daysInMonth
    have h3' : mp ≤ 10 := by omega
    interval_cases mp <;> norm_num at h5 ⊢ <;> omega

theorem days_civil_inverse (z : Int) :
    daysFromCivil (civilFromDays z).1 (civilFromDays z).2.1 (civilFromDays z).2.2 = z := by
  obtain ⟨era, yoe, mp, dd, h0, h1, h2, h3, h4, h5, hz⟩ := civil_decomp z
  rw [hz, civil_core era yoe mp dd h0 h1 h2 h3 h4 h5]
  unfold daysFromCivil
  unfold marchMonthLen leapBitYoe at h5
  interval_cases mp <;>
    simp only [reduceIte] <;>
    unfold doeOf doyFromMp <;>
    omega

theorem daysFromCivil_linear (y m d k : Int) :
    daysFromCivil y m (d + k) = daysFromCivil y m d + k := by
  unfold daysFromCivil doeOf doyFromMp
  split_ifs <;> ring

theorem feb_overflow (y e : Int) :
    daysFromCivil y 2 (daysInMonth y 2 + e) = daysFromCivil y 3 e := by
  unfold daysFromCivil daysInMonth doeOf doyFromMp isLeap
  simp only [reduceIte, decide_eq_true_eq]
  have h1 : y = 400 * ((y - 1) / 400) + (y - 1) % 400 + 1 := by omega
  by_cases hq : (y - 1) % 400 = 399
  · have hB : y / 400 = (y - 1) / 400 + 1 := by omega
    have hr : y % 400 = 0 := by omega
    split_ifs <;> omega
  · have hB : y / 400 = (y - 1) / 400 := by omega
    have hr : y % 400 = (y - 1) % 400 + 1 := by omega
    split_ifs <;> omega

theorem daysFromCivil_month_overflow (y m e : Int) (hm1 : 1 ≤ m) (hm2 : m ≤ 12) :
    daysFromCivil y m (daysInMonth y m + e)
      = (if m = 12 then daysFromCivil (y + 1) 1 e else daysFromCivil y (m + 1) e) := by
  by_cases hm : m = 2
  · subst hm
    norm_num
    exact feb_overflow y e
  · unfold daysFromCivil daysInMonth doeOf doyFromMp isLeap
    interval_cases m <;> first
      | (exact absurd rfl hm)
      | (norm_num [decide_eq_true_eq]; (try split_ifs) <;> omega)
      | (norm_num [decide_eq_true_eq])

/-! ## Millisecond-level model of ECMAScript Date values (UTC environment)

A Date value is its time value: milliseconds since the epoch. The host
timezone is modelled as UTC (no offset, no DST), so local-time getters
coincide with the UTC ones. -/

def msPerDay : Int := 86400000

/-- ECMAScript Day(t). -/
def jsDay (t : Int) : Int := t / msPerDay

/-- ECMAScript TimeWithinDay(t). -/
def jsTimeWithinDay (t : Int) : Int := t % msPerDay

def jsGetFullYear (t : Int) : Int := (civilFromDays (jsDay t)).1

/-- ECMAScript getMonth: 0-based month. -/
def jsGetMonth (t : Int) : Int := (civilFromDays (jsDay t)).2.1 - 1

def jsGetDate (t : Int) : Int := (civilFromDays (jsDay t)).2.2

/-- ECMAScript MakeDay(y, m, d): month is 0-based and may lie outside 0..11;
day may lie outside the month; both roll over. -/
def jsMakeDay (y m0 d : Int) : Int :=
  daysFromCivil (y + m0 / 12) (m0 % 12 + 1) d

/-- Date.prototype.setDate on time value t (UTC model). -/
def jsSetDate (t d : Int) : Int :=
  jsMakeDay (jsGetFullYear t) (jsGetMonth t) d * msPerDay + jsTimeWithinDay t

/-- Date.prototype.setMonth on time value t (UTC model, 0-based month). -/
def jsSetMonth (t m0 : Int) : Int :=
  jsMakeDay (jsGetFullYear t) m0 (jsGetDate t) * msPerDay + jsTimeWithinDay t

theorem t_decomp (t : Int) : t = jsDay t * msPerDay + jsTimeWithinDay t ∧
    0 ≤ jsTimeWithinDay t ∧ jsTimeWithinDay t < msPerDay := by
  unfold jsDay jsTimeWithinDay msPerDay
  omega

theorem jsMakeDay_inRange (y m0 d : Int) (h1 : 0 ≤ m0) (h2 : m0 ≤ 11) :
    jsMakeDay y m0 d = daysFromCivil y (m0 + 1) d := by
  unfold jsMakeDay
  have e1 : y + m0 / 12 = y := by omega
  have e2 : m0 % 12 + 1 = m0 + 1 := by omega
  rw [e1, e2]

/-- setDate(getDate() + k) adds exactly k days to the time value. -/
theorem jsSetDate_shift (t k : Int) :
    jsSetDate t (jsGetDate t + k) = t + k * msPerDay := by
  unfold jsSetDate jsGetDate jsGetFullYear jsGetMonth
  have hv := civilFromDays_valid (jsDay t)
  rw [jsMakeDay_inRange _ _ _ (by omega) (by omega)]
  have e1 : (civilFromDays (jsDay t)).2.1 - 1 + 1 = (civilFromDays (jsDay t)).2.1 := by ring
  rw [e1, daysFromCivil_linear, days_civil_inverse]
  unfold jsDay jsTimeWithinDay msPerDay
  omega

/-- setMonth(getMonth() + 1) jumps to the same day-of-month of the next
month, with day overflow rolling further (no clamping). -/
theorem jsSetMonth_next (t : Int) :
    jsSetMonth t (jsGetMonth t + 1)
      = (if (civilFromDays (jsDay t)).2.1 = 12
          then daysFromCivil ((civilFromDays (jsDay t)).1 + 1) 1 (civilFromDays (jsDay t)).2.2
          else daysFromCivil (civilFromDays (jsDay t)).1 ((civilFromDays (jsDay t)).2.1 + 1)
                 (civilFromDays (jsDay t)).2.2) * msPerDay
        + jsTimeWithinDay t := by
  unfold jsSetMonth jsGetMonth jsGetFullYear jsGetDate jsMakeDay
  have hv := civilFromDays_valid (jsDay t)
  by_cases h12 : (civilFromDays (jsDay t)).2.1 = 12
  · rw [if_pos h12, h12]
    have e1 : (12 : Int) - 1 + 1 = 12 := by norm_num
    rw [e1]
    norm_num
  · rw [if_neg h12]
    have e1 : (civilFromDays (jsDay t)).2.1 - 1 + 1 = (civilFromDays (jsDay t)).2.1 := by ring
    rw [e1]
    have e2 : (civilFromDays (jsDay t)).1 + (civilFromDays (jsDay t)).2.1 / 12
        = (civilFromDays (jsDay t)).1 := by omega
    have e3 : (civilFromDays (jsDay t)).2.1 % 12 + 1 = (civilFromDays (jsDay t)).2.1 + 1 := by
      omega
    rw [e2, e3]

/-! ## ISO 8601 timestamp strings

The application stores timestamps as Date.prototype.toISOString output
("YYYY-MM-DDTHH:MM:SS.sssZ"). The Date-string parser below models the
ECMAScript date-time string format for exactly the shapes this program
produces and consumes: the full canonical form with Z offset and the
date-only form "YYYY-MM-DD" (interpreted as UTC midnight). -/

def digitVal (c : Char) : Int := (c.toNat : Int) - 48

def twoDigits (a b : Char) : Int := 10 * digitVal a + digitVal b

def fourDigits (a b c d : Char) : Int :=
  1000 * digitVal a + 100 * digitVal b + 10 * digitVal c + digitVal d

/-- Parse the time-of-day part "THH:MM:SS.sssZ" (already split off); returns
milliseconds within the day. -/
def parseTimePart (l : List Char) : Option Int :=
  match l with
  | ['T', h1, h2, ':', mi1, mi2, ':', s1, s2, '.', f1, f2, f3, 'Z'] =>
    if ([h1, h2, mi1, mi2, s1, s2, f1, f2, f3].all Char.isDigit) then
      let hh := twoDigits h1 h2
      let mm := twoDigits mi1 mi2
      let ss := twoDigits s1 s2
      let ff := 100 * digitVal f1 + 10 * digitVal f2 + digitVal f3
      if hh ≤ 23 ∧ mm ≤ 59 ∧ ss ≤ 59 then
        some (hh * 3600000 + mm * 60000 + ss * 1000 + ff)
      else none
    else none
  | _ => none

/-- Model of new Date(string) for this program's timestamp strings: returns
the time value (ms since epoch), or none for an unrecognized / invalid
string (JS: an Invalid Date, NaN time value). -/
def isoParse (s : String) : Option Int :=
  match s.data with
  | y1 :: y2 :: y3 :: y4 :: '-' :: m1 :: m2 :: '-' :: d1 :: d2 :: rest =>
    if ([y1, y2, y3, y4, m1, m2, d1, d2].all Char.isDigit) then
      let y := fourDigits y1 y2 y3 y4
      let m := twoDigits m1 m2
      let d := twoDigits d1 d2
      if 1 ≤ m ∧ m ≤ 12 ∧ 1 ≤ d ∧ d ≤ daysInMonth y m then
        match rest with
        | [] => some (daysFromCivil y m d * msPerDay)
        | _ =>
          match parseTimePart rest with
          | some tod => some (daysFromCivil y m d * msPerDay + tod)
          | none => none
      else none
    else none
  | _ => none

def padNat (w n : Nat) : List Char :=
  let s := (Nat.repr n).data
  List.replicate (w - s.length) '0' ++ s

/-- Model of Date.prototype.toISOString (UTC): renders the time value. Years
outside 0..9999 use the expanded ±YYYYYY form, as in ECMAScript. -/
def isoRender (t : Int) : String :=
  let z := jsDay t
  let c := civilFromDays z
  let tod := jsTimeWithinDay t
  let yearPart : List Char :=
    if c.1 < 0 then '-' :: padNat 6 (-c.1).toNat
    else if c.1 ≤ 9999 then padNat 4 c.1.toNat
    else '+' :: padNat 6 c.1.toNat
  ⟨yearPart ++ '-' :: padNat 2 c.2.1.toNat ++ '-' :: padNat 2 c.2.2.toNat ++
    'T' :: padNat 2 (tod / 3600000).toNat ++ ':' :: padNat 2 (tod % 3600000 / 60000).toNat ++
    ':' :: padNat 2 (tod % 60000 / 1000).toNat ++ '.' :: padNat 3 (tod % 1000).toNat ++ ['Z']⟩

example : isoParse "2026-02-28" = some (daysFromCivil 2026 2 28 * msPerDay) := by decide
example : isoRender (daysFromCivil 2026 2 28 * msPerDay) = "2026-02-28T00:00:00.000Z" := by
  decide
example : isoParse "2026-02-28T00:00:00.000Z" = some (daysFromCivil 2026 2 28 * msPerDay) := by
  decide

/-! ## JS string helpers: trim, toLowerCase (modelled charwise) -/

def jsTrimChars (l : List Char) : List Char :=
  ((l.dropWhile Char.isWhitespace).reverse.dropWhile Char.isWhitespace).reverse

/-- Model of String.prototype.trim. -/
def jsTrim (s : String) : String := ⟨jsTrimChars s.data⟩

/-- Model of String.prototype.toLowerCase (ASCII case mapping). -/
def jsToLower (s : String) : String := ⟨s.data.map Char.toLower⟩

theorem dropWhile_self (p : Char → Bool) (l : List Char) :
    (l.dropWhile p).dropWhile p = l.dropWhile p := by
  induction l with
  | nil => rfl
  | cons a t ih =>
    by_cases h : p a <;> simp [List.dropWhile_cons, h, ih]

theorem dropWhile_head_false (p : Char → Bool) (l : List Char) (c : Char) (r : List Char)
    (h : l.dropWhile p = c :: r) : p c = false := by
  induction l with
  | nil => simp at h
  | cons a t ih =>
    rw [List.dropWhile_cons] at h
    split_ifs at h with hp
    · exact ih h
    · cases h; simpa using hp

theorem jsTrimChars_idem (l : List Char) : jsTrimChars (jsTrimChars l) = jsTrimChars l := by
  unfold jsTrimChars
  set A := l.dropWhile Char.isWhitespace with hA
  set B := A.reverse.dropWhile Char.isWhitespace with hB
  have hBsfx : B <:+ A.reverse := by rw [hB]; exact List.dropWhile_suffix _
  have h1 : B.reverse.dropWhile Char.isWhitespace = B.reverse := by
    rcases hBrev : B.reverse with _ | ⟨c, r⟩
    · simp
    · have hpre : B.reverse <+: A := by
        rw [← List.reverse_reverse A]
        exact List.reverse_prefix.mpr hBsfx
      rw [hBrev] at hpre
      obtain ⟨tl, htl⟩ := hpre
      have hcfalse : Char.isWhitespace c = false := by
        apply dropWhile_head_false Char.isWhitespace l c (r ++ tl)
        rw [← hA, ← htl]
        simp
      simp [List.dropWhile_cons, hcfalse]
  have h2 : B.dropWhile Char.isWhitespace = B := by rw [hB]; exact dropWhile_self _ _
  rw [h1, List.reverse_reverse, h2]

theorem jsTrim_idem (s : String) : jsTrim (jsTrim s) = jsTrim s := by
  unfold jsTrim
  exact congrArg String.mk (jsTrimChars_idem s.data)

theorem jsToLower_eq_empty_iff (s : String) : jsToLower s = "" ↔ s = "" := by
  unfold jsToLower
  rw [String.ext_iff, String.ext_iff]
  simp

theorem jsToLower_trim_of_fixed (s : String) (h : jsTrim s = s) :
    jsToLower (jsTrim s) = jsToLower s := by rw [h]

/-! ## normalizeTags (from utilities.ts) -/

/-- Loop of normalizeTags: walks the tags, keeps the trimmed tag when its
lower-cased trimmed form is nonempty and not seen yet. -/
def normalizeTagsGo : List String → List String → List String
  | [], _ => []
  | t :: rest, seen =>
    let c := jsTrim t
    let key := jsToLower c
    if key ≠ "" ∧ key ∉ seen then c :: normalizeTagsGo rest (key :: seen)
    else normalizeTagsGo rest seen

/-- normalizeTags from utilities.ts: case-insensitive dedup of trimmed tags,
first occurrence (and its casing) wins, insertion order preserved. -/
def normalizeTags (tags : List String) : List String := normalizeTagsGo tags []

theorem normalizeTagsGo_inv (l : List String) : ∀ seen : List String,
    (∀ e ∈ normalizeTagsGo l seen,
      jsTrim e = e ∧ jsToLower e ≠ "" ∧ jsToLower e ∉ seen) ∧
    ((normalizeTagsGo l seen).map jsToLower).Nodup := by
  induction l with
  | nil => intro seen; simp [normalizeTagsGo]
  | cons t rest ih =>
    intro seen
    simp only [normalizeTagsGo]
    split_ifs with hcond
    · obtain ⟨hkey, hmem⟩ := hcond
      obtain ⟨ih1, ih2⟩ := ih (jsToLower (jsTrim t) :: seen)
      constructor
      · intro e he
        rcases List.mem_cons.mp he with rfl | he'
        · exact ⟨jsTrim_idem t, hkey, hmem⟩
        · obtain ⟨a, b, c⟩ := ih1 e he'
          exact ⟨a, b, fun hx => c (List.mem_cons_of_mem _ hx)⟩
      · simp only [List.map_cons, List.nodup_cons]
        refine ⟨?_, ih2⟩
        intro hx
        rw [List.mem_map] at hx
        obtain ⟨e, he, hkeq⟩ := hx
        obtain ⟨ha, hb, hc⟩ := ih1 e he
        exact hc (by rw [hkeq]; exact List.mem_cons_self _ _)
    · obtain ⟨ih1, ih2⟩ := ih seen
      exact ⟨ih1, ih2⟩

theorem normalizeTagsGo_fixed (l : List String) : ∀ seen : List String,
    (∀ e ∈ l, jsTrim e = e ∧ jsToLower e ≠ "" ∧ jsToLower e ∉ seen) →
    (l.map jsToLower).Nodup →
    normalizeTagsGo l seen = l := by
  induction l with
  | nil => intro seen _ _; rfl
  | cons e rest ih =>
    intro seen hmem hnd
    obtain ⟨he1, he2, he3⟩ := hmem e (List.mem_cons_self _ _)
    simp only [normalizeTagsGo, he1]
    rw [if_pos ⟨he2, he3⟩]
    congr 1
    apply ih
    · intro x hx
      obtain ⟨a, b, c⟩ := hmem x (List.mem_cons_of_mem _ hx)
      refine ⟨a, b, ?_⟩
      intro hin
      rcases List.mem_cons.mp hin with heq | hin'
      · rw [List.map_cons, List.nodup_cons] at hnd
        exact hnd.1 (heq ▸ List.mem_map_of_mem jsToLower hx)
      · exact c hin'
    · rw [List.map_cons, List.nodup_cons] at hnd
      exact hnd.2

/-- Tag normalization is idempotent. -/
theorem normalizeTags_idem (tags : List String) :
    normalizeTags (normalizeTags tags) = normalizeTags tags := by
  unfold normalizeTags
  obtain ⟨h1, h2⟩ := normalizeTagsGo_inv tags []
  exact normalizeTagsGo_fixed _ [] (fun e he => (h1 e he)) h2

/-- The spec's description of tag normalization, written directly: walk the
(trimmed) tags in order; drop empties; keep the first occurrence of each
case-insensitive key with its casing; drop later duplicates. -/
def dedupeCaseInsensitiveFirst : List String → List String
  | [] => []
  | t :: rest =>
    if jsToLower t = "" then dedupeCaseInsensitiveFirst rest
    else t :: dedupeCaseInsensitiveFirst
      (rest.filter (fun u => jsToLower u ≠ jsToLower t))
termination_by l => l.length
decreasing_by
  · simp
  · simp only [List.length_cons]
    have := List.length_filter_le (fun u => decide (jsToLower u ≠ jsToLower t)) rest
    omega

theorem dedupe_mem_aux (n : Nat) : ∀ (L : List String), L.length ≤ n →
    ∀ e, e ∈ dedupeCaseInsensitiveFirst L → e ∈ L := by
  induction n with
  | zero =>
    intro L hL e h
    match L, hL with
    | [], _ => simpa [dedupeCaseInsensitiveFirst] using h
  | succ k ih =>
    intro L hL e h
    match L with
    | [] => simpa [dedupeCaseInsensitiveFirst] using h
    | t :: rest =>
      rw [dedupeCaseInsensitiveFirst] at h
      split_ifs at h with hkey
      · exact List.mem_cons_of_mem _ (ih rest (by simpa using hL) e h)
      · rcases List.mem_cons.mp h with rfl | h'
        · exact List.mem_cons_self _ _
        · have hlen : (rest.filter (fun u => jsToLower u ≠ jsToLower t)).length ≤ k := by
            have := List.length_filter_le (fun u => decide (jsToLower u ≠ jsToLower t)) rest
            simp only [List.length_cons] at hL
            omega
          exact List.mem_cons_of_mem _ (List.mem_of_mem_filter (ih _ hlen e h'))

theorem dedupe_mem {e : String} (L : List String)
    (h : e ∈ dedupeCaseInsensitiveFirst L) : e ∈ L :=
  dedupe_mem_aux L.length L (le_refl _) e h

theorem normalizeTagsGo_congr (l : List String) : ∀ s₁ s₂ : List String,
    (∀ x, x ∈ s₁ ↔ x ∈ s₂) → normalizeTagsGo l s₁ = normalizeTagsGo l s₂ := by
  induction l with
  | nil => intro _ _ _; rfl
  | cons t rest ih =>
    intro s₁ s₂ hiff
    simp only [normalizeTagsGo]
    by_cases hc : jsToLower (jsTrim t) ≠ "" ∧ jsToLower (jsTrim t) ∉ s₁
    · rw [if_pos hc, if_pos ⟨hc.1, fun hx => hc.2 ((hiff _).mpr hx)⟩]
      congr 1
      apply ih
      intro x
      simp only [List.mem_cons]
      exact or_congr Iff.rfl (hiff x)
    · rw [if_neg hc, if_neg ?_]
      · exact ih _ _ hiff
      · intro hc2
        exact hc ⟨hc2.1, fun hx => hc2.2 ((hiff _).mp hx)⟩

theorem normalizeTagsGo_cons_filter (l : List String) : ∀ (k : String) (s : List String),
    k ≠ "" →
    normalizeTagsGo l (k :: s)
      = (normalizeTagsGo l s).filter (fun e => jsToLower e ≠ k) := by
  induction l with
  | nil => intro k s _; rfl
  | cons t rest ih =>
    intro k s hk
    simp only [normalizeTagsGo]
    by_cases hkey : jsToLower (jsTrim t) = ""
    · rw [if_neg (by simp [hkey]), if_neg (by simp [hkey])]
      exact ih k s hk
    · by_cases hks : jsToLower (jsTrim t) ∈ s
      · rw [if_neg (by simp [hks]), if_neg (by simp [hks])]
        exact ih k s hk
      · by_cases hkk : jsToLower (jsTrim t) = k
        · rw [if_neg (by simp [hkk]), if_pos ⟨hkey, hks⟩]
          have hd : (decide (jsToLower (jsTrim t) ≠ k)) = false := by simp [hkk]
          rw [List.filter_cons, hd]
          simp only [Bool.false_eq_true, if_false]
          rw [hkk, ih k s hk, List.filter_filter]
          apply List.filter_congr
          intro x _
          simp
        · rw [if_pos ⟨hkey, by simp [hkk, hks]⟩, if_pos ⟨hkey, hks⟩]
          have hd : (decide (jsToLower (jsTrim t) ≠ k)) = true := by simp [hkk]
          rw [List.filter_cons, hd]
          simp only [if_true]
          congr 1
          rw [normalizeTagsGo_congr rest (jsToLower (jsTrim t) :: k :: s)
            (k :: jsToLower (jsTrim t) :: s) (by intro x; simp; tauto)]
          exact ih k (jsToLower (jsTrim t) :: s) hk

theorem dedupe_filter_comm_aux (n : Nat) : ∀ (L : List String) (k : String), L.length ≤ n →
    (dedupeCaseInsensitiveFirst L).filter (fun e => jsToLower e ≠ k)
      = dedupeCaseInsensitiveFirst (L.filter (fun e => jsToLower e ≠ k)) := by
  induction n with
  | zero =>
    intro L k hL
    match L, hL with
    | [], _ => simp [dedupeCaseInsensitiveFirst]
  | succ nn ih =>
    intro L k hL
    match L with
    | [] => simp [dedupeCaseInsensitiveFirst]
    | t :: M =>
      simp only [List.length_cons] at hL
      by_cases hkey : jsToLower t = ""
      · rw [dedupeCaseInsensitiveFirst, if_pos hkey]
        by_cases hpt : jsToLower t = k
        · have hfc : (t :: M).filter (fun e => jsToLower e ≠ k)
              = M.filter (fun e => jsToLower e ≠ k) := by
            simp [List.filter_cons, hpt]
          rw [hfc]
          exact ih M k (by omega)
        · have hfc : (t :: M).filter (fun e => jsToLower e ≠ k)
              = t :: M.filter (fun e => jsToLower e ≠ k) := by
            simp [List.filter_cons, hpt]
          rw [hfc, dedupeCaseInsensitiveFirst, if_pos hkey]
          exact ih M k (by omega)
      · rw [dedupeCaseInsensitiveFirst, if_neg hkey]
        by_cases hpt : jsToLower t = k
        · have hfc : (t :: M).filter (fun e => jsToLower e ≠ k)
              = M.filter (fun e => jsToLower e ≠ k) := by
            simp [List.filter_cons, hpt]
          have hlhs : (t :: dedupeCaseInsensitiveFirst
                (M.filter (fun u => jsToLower u ≠ jsToLower t))).filter
                  (fun e => jsToLower e ≠ k)
              = (dedupeCaseInsensitiveFirst
                  (M.filter (fun u => jsToLower u ≠ jsToLower t))).filter
                    (fun e => jsToLower e ≠ k) := by
            simp [List.filter_cons, hpt]
          rw [hlhs, hfc,
            ih (M.filter (fun u => jsToLower u ≠ jsToLower t)) k
              (by have := List.length_filter_le
                    (fun u => decide (jsToLower u ≠ jsToLower t)) M; omega)]
          rw [hpt, List.filter_filter]
          congr 1
          apply List.filter_congr
          intro x _
          simp
        · have hfc : (t :: M).filter (fun e => jsToLower e ≠ k)
              = t :: M.filter (fun e => jsToLower e ≠ k) := by
            simp [List.filter_cons, hpt]
          have hlhs : (t :: dedupeCaseInsensitiveFirst
                (M.filter (fun u => jsToLower u ≠ jsToLower t))).filter
                  (fun e => jsToLower e ≠ k)
              = t :: (dedupeCaseInsensitiveFirst
                  (M.filter (fun u => jsToLower u ≠ jsToLower t))).filter
                    (fun e => jsToLower e ≠ k) := by
            simp [List.filter_cons, hpt]
          rw [hlhs, hfc, dedupeCaseInsensitiveFirst, if_neg hkey]
          congr 1
          rw [ih (M.filter (fun u => jsToLower u ≠ jsToLower t)) k
              (by have := List.length_filter_le
                    (fun u => decide (jsToLower u ≠ jsToLower t)) M; omega),
            List.filter_filter, List.filter_filter]
          congr 1
          apply List.filter_congr
          intro x _
          simp [Bool.and_comm]

theorem dedupe_filter_comm (L : List String) (k : String) :
    (dedupeCaseInsensitiveFirst L).filter (fun e => jsToLower e ≠ k)
      = dedupeCaseInsensitiveFirst (L.filter (fun e => jsToLower e ≠ k)) :=
  dedupe_filter_comm_aux L.length L k (le_refl _)

/-- normalizeTags agrees with the spec's description: trim, then keep the
first occurrence of each case-insensitive key. -/
theorem normalizeTags_eq_dedupe (tags : List String) :
    normalizeTags tags = dedupeCaseInsensitiveFirst (tags.map jsTrim) := by
  induction tags with
  | nil => simp [normalizeTags, normalizeTagsGo, dedupeCaseInsensitiveFirst]
  | cons t rest ih =>
    unfold normalizeTags at *
    simp only [List.map_cons]
    rw [dedupeCaseInsensitiveFirst]
    simp only [normalizeTagsGo]
    by_cases hkey : jsToLower (jsTrim t) = ""
    · rw [if_pos hkey, if_neg (by simp [hkey])]
      exact ih
    · rw [if_neg hkey, if_pos ⟨hkey, by simp⟩]
      congr 1
      rw [normalizeTagsGo_cons_filter rest (jsToLower (jsTrim t)) [] hkey, ih,
        dedupe_filter_comm]

namespace TaskMgr

/-! ## Data model (types.ts) -/

inductive Status where
  | todo
  | inProgress
  | done
deriving DecidableEq

inductive Priority where
  | low
  | medium
  | high
deriving DecidableEq

inductive Frequency where
  | daily
  | weekly
  | monthly
  | custom
deriving DecidableEq

/-- Recurrence from types.ts; daysInterval is meaningful only for custom. -/
structure Recurrence where
  frequency : Frequency
  daysInterval : Int := 0
  endDate : Option String := none
deriving DecidableEq

structure Task where
  id : String
  title : String
  description : String := ""
  status : Status := .todo
  priority : Priority := .medium
  dueDate : String
  tags : List String := []
  recurrence : Option Recurrence := none
  dependencies : List String := []
  createdAt : String := ""
  updatedAt : String := ""
deriving DecidableEq

inductive ErrCode where
  | VALIDATION_ERROR
  | NOT_FOUND
  | STORAGE_ERROR
  | DEPENDENCY_ERROR
  | APP_ERROR
deriving DecidableEq

/-- A thrown JS error: either an AppError (message, code, optional nested
details) or a plain Error. -/
inductive JsError where
  | app (message : String) (code : ErrCode) (details : Option JsError)
  | plain (message : String)

/-- Whether a thrown error is an AppError carrying the given code. -/
def JsError.hasCode (e : JsError) (c : ErrCode) : Bool :=
  match e with
  | .app _ c' _ => c' = c
  | .plain _ => false

inductive SortField where
  | dueDate
  | priority
  | status
  | title
  | createdAt
deriving DecidableEq

inductive SortDirection where
  | asc
  | desc
deriving DecidableEq

structure TaskSortConfig where
  field : SortField
  direction : SortDirection
deriving DecidableEq

/-! ## Generic utilities (utilities.ts) -/

/-- unique() from utilities.ts, specialized to string keys being the
elements themselves (as used for dependencies). -/
def uniqueGo : List String → List String → List String
  | [], _ => []
  | x :: rest, seen =>
    if x ∈ seen then uniqueGo rest seen else x :: uniqueGo rest (x :: seen)

def uniqueStrings (l : List String) : List String := uniqueGo l []

def priorityRank : Priority → Int
  | .high => 0
  | .medium => 1
  | .low => 2

def statusRank : Status → Int
  | .todo => 0
  | .inProgress => 1
  | .done => 2

/-- Model of String.prototype.localeCompare: three-way comparison in
lexicographic code-unit order. -/
def strCmp (a b : String) : Int :=
  if a = b then 0 else if a < b then -1 else 1

/-- The comparator built by sortTasks (utilities.ts). A NaN due-date
difference is treated as 0, as Array.prototype.sort does. -/
def cmpTasks (cfg : TaskSortConfig) (a b : Task) : Int :=
  let comparison : Int :=
    match cfg.field with
    | .dueDate =>
      match isoParse a.dueDate, isoParse b.dueDate with
      | some x, some y => x - y
      | _, _ => 0
    | .priority => priorityRank a.priority - priorityRank b.priority
    | .status => statusRank a.status - statusRank b.status
    | .title => strCmp a.title b.title
    | .createdAt =>
      match isoParse a.createdAt, isoParse b.createdAt with
      | some x, some y => x - y
      | _, _ => 0
  comparison * (match cfg.direction with | .asc => 1 | .desc => -1)

/-- Stable insertion of x into l: x goes before the first element y with
le x y, hence after every earlier-listed element that compares equal. -/
def jsOrderedInsert (le : Task → Task → Bool) (x : Task) : List Task → List Task
  | [] => [x]
  | y :: ys => if le x y then x :: y :: ys else y :: jsOrderedInsert le x ys

/-- Stable sort by a boolean comparator-derived order (model of
Array.prototype.sort, which the ECMAScript spec requires to be stable). -/
def jsSort (le : Task → Task → Bool) : List Task → List Task
  | [] => []
  | x :: xs => jsOrderedInsert le x (jsSort le xs)

/-- sortTasks (utilities.ts): Array.prototype.sort with the comparator
above, modelled as a stable sort. -/
def sortTasks (tasks : List Task) (cfg : TaskSortConfig) : List Task :=
  jsSort (fun a b => cmpTasks cfg a b ≤ 0) tasks

/-- A field of the untyped input object: absent (or null/undefined), a
string, or some other non-string value. -/
inductive RawField where
  | missing
  | str (s : String)
  | other
deriving DecidableEq

/-- A numeric-or-not field. The model restricts JS numbers to integers. -/
inductive RawNum where
  | missing
  | num (n : Int)
  | other
deriving DecidableEq

inductive RawTags where
  | missing
  | arr (items : List RawField)
  | other
deriving DecidableEq

inductive RawRec where
  | missing
  | obj (frequency : RawField) (daysInterval : RawNum) (endDate : RawField)
  | nonObj
deriving DecidableEq

inductive RawDeps where
  | missingOrFalsy
  | arr (items : List RawField)
  | otherTruthy
deriving DecidableEq

inductive RawId where
  | missing
  | str (s : String)
  | num (n : Int)
  | other
deriving DecidableEq

/-- The untyped input object handed to create/update, with exactly the
distinctions the validator inspects. -/
structure RawInput where
  title : RawField := .missing
  description : RawField := .missing
  status : RawField := .missing
  priority : RawField := .missing
  dueDate : RawField := .missing
  tags : RawTags := .missing
  recurrence : RawRec := .missing
  dependencies : RawDeps := .missingOrFalsy
  id : RawId := .missing
deriving DecidableEq

inductive ValidationMode where
  | create
  | update
deriving DecidableEq

/-- The validated field bundle produced by validateTaskInput. In create
mode id is "" (the source omits the key). -/
structure Validated where
  id : String := ""
  title : String
  description : String
  status : Status
  priority : Priority
  dueDate : String
  tags : List String
  recurrence : Option Recurrence
  dependencies : List String

def parseStatus (s : String) : Option Status :=
  if s = "todo" then some .todo
  else if s = "in-progress" then some .inProgress
  else if s = "done" then some .done
  else none

def parsePriority (s : String) : Option Priority :=
  if s = "low" then some .low
  else if s = "medium" then some .medium
  else if s = "high" then some .high
  else none

def parseFrequency (s : String) : Option Frequency :=
  if s = "daily" then some .daily
  else if s = "weekly" then some .weekly
  else if s = "monthly" then some .monthly
  else if s = "custom" then some .custom
  else none

/-- isValidDueDateISO: new Date(iso) parses to a non-NaN time value. -/
def isValidDueDateISO (iso : String) : Bool :=
  iso ≠ "" ∧ (isoParse iso).isSome

/-- validateTags: every element must be a string, nonempty after trim;
result is the normalized (trimmed, case-insensitively deduplicated) list. -/
def validateTags (tags : List RawField) : Except JsError (List String) := do
  let mut0 : Except JsError (List String) :=
    tags.foldl (fun acc tag =>
      match acc with
      | .error e => .error e
      | .ok collected =>
        match tag with
        | .str s =>
          if jsTrim s = "" then
            .error (.app "Tags cannot be empty" .VALIDATION_ERROR none)
          else .ok (collected ++ [jsTrim s])
        | _ => .error (.app "Tags must be strings" .VALIDATION_ERROR none))
      (.ok [])
  match mut0 with
  | .error e => .error e
  | .ok validTags => .ok (normalizeTags validTags)

/-- validateRecurrence (taskService.ts). -/
def validateRecurrence (r : RawRec) : Except JsError (Option Recurrence) :=
  match r with
  | .missing => .ok none
  | .nonObj => .error (.app "Recurrence must be an object" .VALIDATION_ERROR none)
  | .obj freq di ed =>
    match freq with
    | .str s =>
      match parseFrequency s with
      | none =>
        .error (.app "Recurrence frequency must be one of: daily, weekly, monthly, custom"
          .VALIDATION_ERROR none)
      | some f =>
        let endDate : Option String := match ed with | .str e => some e | _ => none
        if f = .custom then
          match di with
          | .num n =>
            if n < 1 then
              .error (.app "Custom recurrence requires daysInterval (minimum 1)"
                .VALIDATION_ERROR none)
            else .ok (some { frequency := .custom, daysInterval := n, endDate := endDate })
          | _ =>
            .error (.app "Custom recurrence requires daysInterval (minimum 1)"
              .VALIDATION_ERROR none)
        else .ok (some { frequency := f, endDate := endDate })
    | _ => .error (.app "Recurrence frequency is required" .VALIDATION_ERROR none)

/-- validateDependencies (taskService.ts). -/
def validateDependencies (d : RawDeps) : Except JsError (List String) :=
  match d with
  | .missingOrFalsy => .ok []
  | .otherTruthy => .error (.app "Dependencies must be an array" .VALIDATION_ERROR none)
  | .arr items =>
    let step : Except JsError (List String) := items.foldl (fun acc dep =>
      match acc with
      | .error e => .error e
      | .ok collected =>
        match dep with
        | .str s =>
          if jsTrim s = "" then
            .error (.app "Each dependency must be a non-empty string" .VALIDATION_ERROR none)
          else .ok (collected ++ [jsTrim s])
        | _ => .error (.app "Each dependency must be a non-empty string" .VALIDATION_ERROR none))
      (.ok [])
    match step with
    | .error e => .error e
    | .ok validDeps => .ok (uniqueStrings validDeps)

/-- The tags branch of validateTaskInput: absent tags are [], a non-array
is an error, an array goes through validateTags. -/
def validateTagsField (t : RawTags) : Except JsError (List String) :=
  match t with
  | .missing => .ok []
  | .other => .error (.app "Tags must be an array" .VALIDATION_ERROR none)
  | .arr items => validateTags items

/-- validateTaskInput (taskService.ts). -/
def validateTaskInput (data : RawInput) (mode : ValidationMode) :
    Except JsError Validated :=
  let title := match data.title with | .str s => jsTrim s | _ => ""
  if htitle : title = "" then
    .error (.app "Title is required" .VALIDATION_ERROR none)
  else
    match hdesc : data.description with
    | .other => .error (.app "Description must be a string" .VALIDATION_ERROR none)
    | _ =>
      let description := match data.description with | .str s => jsTrim s | _ => ""
      let statusInput := match data.status with | .str s => s | _ => "todo"
      match parseStatus statusInput with
      | none =>
        .error (.app "Status must be one of: todo, in-progress, done" .VALIDATION_ERROR none)
      | some status =>
        let priorityInput := match data.priority with | .str s => s | _ => "medium"
        match parsePriority priorityInput with
        | none =>
          .error (.app "Priority must be one of: low, medium, high" .VALIDATION_ERROR none)
        | some priority =>
          let dueDate := match data.dueDate with | .str s => s | _ => ""
          if dueDate = "" then
            .error (.app "Due date is required" .VALIDATION_ERROR none)
          else if ¬ isValidDueDateISO dueDate then
            .error (.app "Due date is invalid" .VALIDATION_ERROR none)
          else
            match validateTagsField data.tags with
            | .error e => .error e
            | .ok tags =>
              match validateRecurrence data.recurrence with
              | .error e => .error e
              | .ok recurrence =>
                match validateDependencies data.dependencies with
                | .error e => .error e
                | .ok dependencies =>
                  match mode with
                  | .create =>
                    .ok { title := title, description := description, status := status,
                          priority := priority, dueDate := dueDate, tags := tags,
                          recurrence := recurrence, dependencies := dependencies }
                  | .update =>
                    let idStr := match data.id with
                      | .str s => s
                      | .num n => toString n
                      | _ => ""
                    if idStr = "" then
                      .error (.app "Task id is required for update" .VALIDATION_ERROR none)
                    else
                      .ok { id := idStr, title := title, description := description,
                            status := status, priority := priority, dueDate := dueDate,
                            tags := tags, recurrence := recurrence,
                            dependencies := dependencies }

/-! ## Task service operations (taskService.ts)

Each operation is modelled as a pure function of the persisted collection.
Storage-adapter failures are injected through StorageEnv: getAllTasks
throws readErr when set, setAllTasks throws writeErr when set. An
operation returns its result (or thrown error) together with the
collection as persisted after the call. -/

structure StorageEnv where
  readErr : Option JsError := none
  writeErr : Option JsError := none

/-- The catch-block pattern of update/remove: an AppError instance is
rethrown unchanged, anything else is wrapped as a STORAGE_ERROR. -/
def wrapUnlessApp (msg : String) (e : JsError) : JsError :=
  match e with
  | .app m c d => .app m c d
  | .plain m => .app msg .STORAGE_ERROR (some (.plain m))

/-- areDependenciesSatisfied (taskService.ts). -/
def areDependenciesSatisfied (taskId : String) (tasks : List Task) : Bool :=
  match tasks.find? (fun t => t.id = taskId) with
  | none => true
  | some task =>
    if task.dependencies.length = 0 then true
    else
      let completedIds := (tasks.filter (fun t => t.status = Status.done)).map (fun t => t.id)
      task.dependencies.all (fun depId => completedIds.contains depId)

/-- getDependentTasks (taskService.ts): ids of tasks whose dependencies
include the given id. -/
def getDependentTasks (taskId : String) (tasks : List Task) : List String :=
  (tasks.filter (fun t => t.dependencies.contains taskId)).map (fun t => t.id)

/-- taskService.list: read all tasks, sort by the requested config or the
default (due date ascending); any failure is wrapped as STORAGE_ERROR
(unconditionally: this catch has no AppError passthrough). -/
def listOp (env : StorageEnv) (store : List Task) (cfg : Option TaskSortConfig) :
    Except JsError (List Task) :=
  match env.readErr with
  | some e => .error (.app "Failed to load tasks" .STORAGE_ERROR (some e))
  | none =>
    match cfg with
    | some c => .ok (sortTasks store c)
    | none => .ok (sortTasks store { field := .dueDate, direction := .asc })

/-- taskService.create: validate, build the task, append, persist. The
storage catch wraps any failure as STORAGE_ERROR (no AppError
passthrough). Validation throws before the try block. -/
def createOp (env : StorageEnv) (store : List Task) (input : RawInput)
    (newId now : String) : Except JsError Task × List Task :=
  match validateTaskInput input .create with
  | .error e => (.error e, store)
  | .ok v =>
    let task : Task :=
      { id := newId, title := v.title, description := v.description, status := v.status,
        priority := v.priority, dueDate := v.dueDate, tags := v.tags,
        recurrence := v.recurrence, dependencies := v.dependencies,
        createdAt := now, updatedAt := now }
    match env.readErr with
    | some e => (.error (.app "Failed to save task" .STORAGE_ERROR (some e)), store)
    | none =>
      match env.writeErr with
      | some e => (.error (.app "Failed to save task" .STORAGE_ERROR (some e)), store)
      | none => (.ok task, store ++ [task])

/-- The merged task update built by taskService.update: validated fields
overwrite the stored ones (validation always produces every field except
recurrence, so an absent input field does not keep the old value, except
recurrence, which is kept when the input had none); createdAt is kept and
updatedAt is stamped. -/
def mkUpdated (v : Validated) (existing : Task) (now : String) : Task :=
  { id := v.id, title := v.title, description := v.description,
    status := v.status, priority := v.priority, dueDate := v.dueDate,
    tags := v.tags,
    recurrence := match v.recurrence with
      | some r => some r
      | none => existing.recurrence,
    dependencies := v.dependencies,
    createdAt := existing.createdAt, updatedAt := now }

/-- taskService.update: validate (update mode), locate, gate the
transition to done on dependencies, merge, persist. The catch rethrows
AppError instances unchanged and wraps anything else. -/
def updateOp (env : StorageEnv) (store : List Task) (input : RawInput)
    (now : String) : Except JsError Task × List Task :=
  match validateTaskInput input .update with
  | .error e => (.error e, store)
  | .ok v =>
    match env.readErr with
    | some e => (.error (wrapUnlessApp "Failed to update task" e), store)
    | none =>
      match store.findIdx? (fun t => t.id = v.id) with
      | none => (.error (.app "Task not found" .NOT_FOUND none), store)
      | some index =>
        match store[index]? with
        | none => (.error (.app "Task not found" .NOT_FOUND none), store)
        | some existing =>
          if v.status = Status.done ∧ existing.status ≠ Status.done ∧
              ¬ areDependenciesSatisfied v.id store then
            (.error (.app "Cannot complete task: dependencies not satisfied"
              .DEPENDENCY_ERROR none), store)
          else
            match env.writeErr with
            | some e => (.error (wrapUnlessApp "Failed to update task" e), store)
            | none => (.ok (mkUpdated v existing now), store.set index (mkUpdated v existing now))

/-- taskService.remove: reverse-dependency check first, then existence
check, then delete and persist. The catch rethrows AppError instances
unchanged and wraps anything else. -/
def removeOp (env : StorageEnv) (store : List Task) (id : String) :
    Except JsError Bool × List Task :=
  match env.readErr with
  | some e => (.error (wrapUnlessApp "Failed to delete task" e), store)
  | none =>
    let dependents := getDependentTasks id store
    if dependents.length > 0 then
      (.error (.app ("Cannot delete: other tasks depend on this task: "
        ++ String.intercalate ", " dependents) .DEPENDENCY_ERROR none), store)
    else
      match store.findIdx? (fun t => t.id = id) with
      | none => (.error (.app "Task not found" .NOT_FOUND none), store)
      | some index =>
        match env.writeErr with
        | some e => (.error (wrapUnlessApp "Failed to delete task" e), store)
        | none => (.ok true, store.eraseIdx index)

/-! ## Statistics (taskService.ts getStatistics) -/

/-- String.prototype.split with a single-character separator. -/
def jsSplitAux (c : Char) : List Char → List Char → List (List Char)
  | [], cur => [cur.reverse]
  | x :: rest, cur =>
    if x = c then cur.reverse :: jsSplitAux c rest []
    else jsSplitAux c rest (x :: cur)

def jsSplit (c : Char) (s : String) : List String :=
  (jsSplitAux c s.data []).map (fun l => ⟨l⟩)

def digitsVal (ds : List Char) : Int :=
  ds.foldl (fun acc c => 10 * acc + digitVal c) 0

def parseDecDigits (ds : List Char) : Option Int :=
  if ds ≠ [] ∧ ds.all Char.isDigit then some (digitsVal ds) else none

/-- Model of the Number builtin on the strings this code path meets:
surrounding whitespace is ignored, the empty string is 0, an optional
sign followed by decimal digits is that integer. Other numeric forms
(fractions, exponents, hex) are outside the model. -/
def jsNumberInt (s : String) : Option Int :=
  match jsTrimChars s.data with
  | [] => some 0
  | '+' :: ds => parseDecDigits ds
  | '-' :: ds => (parseDecDigits ds).map (fun n => -n)
  | ds => parseDecDigits ds

/-- taskService.parseDateInputToISO: split on "-", Number() the three
parts, build a Date from (year, month-1, day) — the Date constructor maps
years 0..99 to 1900+year — and require the calendar components to
round-trip; returns the ISO rendering, else null. -/
def parseDateInputToISO (dateInput : String) : Option String :=
  if dateInput = "" then none
  else
    match jsSplit '-' dateInput with
    | [p0, p1, p2] =>
      match jsNumberInt p0, jsNumberInt p1, jsNumberInt p2 with
      | some year, some month, some day =>
        let y2 := if 0 ≤ year ∧ year ≤ 99 then year + 1900 else year
        let dayNum := jsMakeDay y2 (month - 1) day
        if dayNum * msPerDay < -8640000000000000 ∨ 8640000000000000 < dayNum * msPerDay then
          none
        else if (civilFromDays dayNum).1 = year ∧ (civilFromDays dayNum).2.1 - 1 = month - 1 ∧
            (civilFromDays dayNum).2.2 = day then
          some (isoRender (dayNum * msPerDay))
        else none
      | _, _, _ => none
    | _ => none

/-- The "recurrence has ended" test of calculateNextOccurrence: an endDate
is present (non-empty: JS `if (rec.endDate)`) and lastDue ≥ endDate. An
unparseable endDate gives a NaN comparison, hence false. -/
def recurrenceEnded (rec : Recurrence) (lastDue : Int) : Bool :=
  match rec.endDate with
  | some s =>
    if s ≠ "" then
      match isoParse s with
      | some e => lastDue ≥ e
      | none => false
    else false
  | none => false

/-- calculateNextOccurrence (taskService.ts). A task with an unparseable
due date is mapped to none (the source would throw a RangeError from
toISOString on the invalid date; that path is unreachable for validated
tasks, whose due dates parse). Never touches the collection. -/
def calculateNextOccurrence (task : Task) : Option String :=
  match task.recurrence with
  | none => none
  | some rec =>
    match isoParse task.dueDate with
    | none => none
    | some lastDue =>
      if recurrenceEnded rec lastDue then none
      else
        match rec.frequency with
        | .daily => some (isoRender (jsSetDate lastDue (jsGetDate lastDue + 1)))
        | .weekly => some (isoRender (jsSetDate lastDue (jsGetDate lastDue + 7)))
        | .monthly => some (isoRender (jsSetMonth lastDue (jsGetMonth lastDue + 1)))
        | .custom => some (isoRender (jsSetDate lastDue (jsGetDate lastDue + rec.daysInterval)))

/-! ## Helper lemmas for the claims -/

def JsError.msg : JsError → String
  | .app m _ _ => m
  | .plain m => m

theorem foldl_error_shape {β : Type} (step : Except JsError (List String) → β →
      Except JsError (List String))
    (hstep : ∀ acc x e, step acc x = .error e →
      acc = .error e ∨ ∃ m, e = .app m .VALIDATION_ERROR none) :
    ∀ (items : List β) (acc : Except JsError (List String)) (e : JsError),
      items.foldl step acc = .error e →
      acc = .error e ∨ ∃ m, e = .app m .VALIDATION_ERROR none := by
  intro items
  induction items with
  | nil => intro acc e h; exact .inl h
  | cons x rest ih =>
    intro acc e h
    rcases ih (step acc x) e h with h' | h'
    · exact hstep acc x e h'
    · exact .inr h'

theorem validateTags_error_shape (items : List RawField) (e : JsError)
    (h : validateTags items = .error e) : ∃ m, e = .app m .VALIDATION_ERROR none := by
  unfold validateTags at h
  simp only [bind, Except.bind] at h
  have hstep : ∀ (acc : Except JsError (List String)) (x : RawField) (e' : JsError),
      (fun (acc : Except JsError (List String)) tag =>
        match acc with
        | .error e => Except.error e
        | .ok collected =>
          match tag with
          | .str s =>
            if jsTrim s = "" then
              Except.error (.app "Tags cannot be empty" .VALIDATION_ERROR none)
            else .ok (collected ++ [jsTrim s])
          | _ => Except.error (.app "Tags must be strings" .VALIDATION_ERROR none)) acc x
        = .error e' →
      acc = .error e' ∨ ∃ m, e' = .app m .VALIDATION_ERROR none := by
    intro acc x e' hs
    rcases acc with e0 | collected
    · exact .inl hs
    · rcases x with _ | s | _
      · exact .inr ⟨_, (Except.error.inj hs).symm⟩
      · dsimp only at hs
        split at hs
        · exact .inr ⟨_, (Except.error.inj hs).symm⟩
        · exact absurd hs (by simp)
      · exact .inr ⟨_, (Except.error.inj hs).symm⟩
  split at h
  · rename_i heq
    have := foldl_error_shape _ hstep items (.ok []) e (by rw [heq]; exact Except.error.inj h ▸ rfl)
    rcases this with h' | h'
    · exact absurd h' (by simp)
    · exact h'
  · exact absurd h (by simp)

theorem validateRecurrence_error_shape (r : RawRec) (e : JsError)
    (h : validateRecurrence r = .error e) : ∃ m, e = .app m .VALIDATION_ERROR none := by
  unfold validateRecurrence at h
  rcases r with _ | ⟨freq, di, ed⟩ | _
  · exact absurd h (by simp)
  · rcases freq with _ | s | _
    · exact ⟨_, (Except.error.inj h).symm⟩
    · dsimp only at h
      rcases hf : parseFrequency s with _ | f <;> rw [hf] at h
      · exact ⟨_, (Except.error.inj h).symm⟩
      · dsimp only at h
        split at h
        · rcases di with _ | n | _
          · exact ⟨_, (Except.error.inj h).symm⟩
          · dsimp only at h
            split at h
            · exact ⟨_, (Except.error.inj h).symm⟩
            · exact absurd h (by simp)
          · exact ⟨_, (Except.error.inj h).symm⟩
        · exact absurd h (by simp)
    · exact ⟨_, (Except.error.inj h).symm⟩
  · exact ⟨_, (Except.error.inj h).symm⟩

theorem validateDependencies_error_shape (d : RawDeps) (e : JsError)
    (h : validateDependencies d = .error e) : ∃ m, e = .app m .VALIDATION_ERROR none := by
  unfold validateDependencies at h
  rcases d with _ | items | _
  · exact absurd h (by simp)
  · dsimp only at h
    have hstep : ∀ (acc : Except JsError (List String)) (x : RawField) (e' : JsError),
        (fun (acc : Except JsError (List String)) dep =>
          match acc with
          | .error e => Except.error e
          | .ok collected =>
            match dep with
            | .str s =>
              if jsTrim s = "" then
                Except.error (.app "Each dependency must be a non-empty string"
                  .VALIDATION_ERROR none)
              else .ok (collected ++ [jsTrim s])
            | _ => Except.error (.app "Each dependency must be a non-empty string"
                .VALIDATION_ERROR none)) acc x
          = .error e' →
        acc = .error e' ∨ ∃ m, e' = .app m .VALIDATION_ERROR none := by
      intro acc x e' hs
      rcases acc with e0 | collected
      · exact .inl hs
      · rcases x with _ | s | _
        · exact .inr ⟨_, (Except.error.inj hs).symm⟩
        · dsimp only at hs
          split at hs
          · exact .inr ⟨_, (Except.error.inj hs).symm⟩
          · exact absurd hs (by simp)
        · exact .inr ⟨_, (Except.error.inj hs).symm⟩
    split at h
    · rename_i heq
      have := foldl_error_shape _ hstep items (.ok []) e
        (by rw [heq]; exact Except.error.inj h ▸ rfl)
      rcases this with h' | h'
      · exact absurd h' (by simp)
      · exact h'
    · exact absurd h (by simp)
  · exact ⟨_, (Except.error.inj h).symm⟩

theorem validateTagsField_error_shape (t : RawTags) (e : JsError)
    (h : validateTagsField t = .error e) : ∃ m, e = .app m .VALIDATION_ERROR none := by
  rcases t with _ | items | _
  · exact absurd h (by simp [validateTagsField])
  · exact validateTags_error_shape items e h
  · exact ⟨_, (Except.error.inj h).symm⟩

theorem validateTaskInput_error_shape (data : RawInput) (mode : ValidationMode) (e : JsError)
    (h : validateTaskInput data mode = .error e) :
    ∃ m, e = .app m .VALIDATION_ERROR none := by
  unfold validateTaskInput at h
  repeat' (first | (dsimp only at h) | split at h)
  all_goals first
    | exact ⟨_, (Except.error.inj h).symm⟩
    | (rename_i e0 heq
       exact validateTagsField_error_shape _ _ ((Except.error.inj h) ▸ heq))
    | (rename_i e0 heq
       exact validateRecurrence_error_shape _ _ ((Except.error.inj h) ▸ heq))
    | (rename_i e0 heq
       exact validateDependencies_error_shape _ _ ((Except.error.inj h) ▸ heq))
    | simp at h

theorem findIdx?_spec {α : Type} (p : α → Bool) : ∀ (l : List α) (i : Nat),
    l.findIdx? p = some i →
    ∃ x, l[i]? = some x ∧ p x = true ∧ l.find? p = some x := by
  intro l
  induction l with
  | nil => intro i h; simp at h
  | cons a t ih =>
    intro i h
    by_cases hpa : p a
    · rw [List.findIdx?_cons, if_pos hpa] at h
      injection h with h'
      subst h'
      exact ⟨a, by simp, hpa, List.find?_cons_of_pos _ hpa⟩
    · rw [List.findIdx?_cons, if_neg hpa, List.findIdx?_succ] at h
      rcases Option.map_eq_some'.mp h with ⟨j, hj, hji⟩
      obtain ⟨x, hx1, hx2, hx3⟩ := ih j hj
      subst hji
      refine ⟨x, by simpa using hx1, hx2, ?_⟩
      rw [List.find?_cons_of_neg _ hpa]
      exact hx3

theorem find?_some_findIdx? {α : Type} (p : α → Bool) : ∀ (l : List α) (x : α),
    l.find? p = some x →
    ∃ i, l.findIdx? p = some i ∧ l[i]? = some x ∧ p x = true := by
  intro l
  induction l with
  | nil => intro x h; simp at h
  | cons a t ih =>
    intro x h
    by_cases hpa : p a
    · rw [List.find?_cons_of_pos _ hpa] at h
      injection h with h'
      subst h'
      exact ⟨0, by simp [List.findIdx?_cons, hpa], by simp, hpa⟩
    · rw [List.find?_cons_of_neg _ hpa] at h
      obtain ⟨i, hi1, hi2, hi3⟩ := ih x h
      refine ⟨i + 1, ?_, by simpa using hi2, hi3⟩
      rw [List.findIdx?_cons, if_neg hpa, List.findIdx?_succ, hi1]
      rfl

theorem find?_none_findIdx? {α : Type} (p : α → Bool) : ∀ (l : List α),
    l.find? p = none → l.findIdx? p = none := by
  intro l
  induction l with
  | nil => intro _; rfl
  | cons a t ih =>
    intro h
    by_cases hpa : p a
    · rw [List.find?_cons_of_pos _ hpa] at h; simp at h
    · rw [List.find?_cons_of_neg _ hpa] at h
      rw [List.findIdx?_cons, if_neg hpa, List.findIdx?_succ, ih h]
      rfl

theorem mem_getDependentTasks (store : List Task) (P : String) (D : Task)
    (hD : D ∈ store) (hdep : P ∈ D.dependencies) :
    D.id ∈ getDependentTasks P store := by
  unfold getDependentTasks
  refine List.mem_map_of_mem _ (List.mem_filter.mpr ⟨hD, ?_⟩)
  simpa [List.contains] using hdep

theorem getDependentTasks_nil (store : List Task) (P : String)
    (hno : ∀ D ∈ store, P ∉ D.dependencies) :
    getDependentTasks P store = [] := by
  unfold getDependentTasks
  rw [List.map_eq_nil]
  rw [List.filter_eq_nil]
  intro D hD
  simpa [List.contains] using hno D hD

/-- C4: when validation fails, create and update raise that validation
error — always a VALIDATION_ERROR — and the stored collection is exactly
what it was before the call: no write happens. -/
theorem claim_C4 (env : StorageEnv) (store : List Task) (input : RawInput)
    (newId now : String) (e : JsError) :
    (validateTaskInput input .create = .error e →
      createOp env store input newId now = (.error e, store) ∧
      ∃ m, e = .app m .VALIDATION_ERROR none) ∧
    (validateTaskInput input .update = .error e →
      updateOp env store input now = (.error e, store) ∧
      ∃ m, e = .app m .VALIDATION_ERROR none) := by
  constructor
  · intro h
    exact ⟨by simp [createOp, h], validateTaskInput_error_shape _ _ _ h⟩
  · intro h
    exact ⟨by simp [updateOp, h], validateTaskInput_error_shape _ _ _ h⟩

theorem claim_C4_witness :
    createOp {} [] {} "id1" "now1"
      = (.error (.app "Title is required" .VALIDATION_ERROR none), []) ∧
    ∃ m, (JsError.app "Title is required" .VALIDATION_ERROR none)
      = .app m .VALIDATION_ERROR none :=
  (claim_C4 {} [] {} "id1" "now1" _).1 rfl

/-- C9 counterexample: a storage failure already wrapped as a
STORAGE_ERROR AppError is wrapped a second time by list (whose catch has
no AppError passthrough), contradicting the claim that list never
double-wraps. -/
theorem claim_C9_counterexample :
    listOp { readErr := some (JsError.app "boom" .STORAGE_ERROR none) } [] none
      = .error (.app "Failed to load tasks" .STORAGE_ERROR
          (some (.app "boom" .STORAGE_ERROR none))) ∧
    (JsError.app "Failed to load tasks" .STORAGE_ERROR
        (some (.app "boom" .STORAGE_ERROR none)))
      ≠ JsError.app "boom" .STORAGE_ERROR none := by
  refine ⟨rfl, fun hcontra => ?_⟩
  have := congrArg JsError.msg hcontra
  simp [JsError.msg] at this

/-- C9 as the code has it: update and remove rethrow an AppError from the
storage phase unchanged (any taxonomy kind), while list and create wrap
every storage-phase failure — even an AppError already carrying
STORAGE_ERROR — in a fresh STORAGE_ERROR. -/
theorem claim_C9 (store : List Task) (input : RawInput) (now id newId : String)
    (cfg : Option TaskSortConfig) (m : String) (c : ErrCode) (d : Option JsError) :
    (∀ v, validateTaskInput input .update = .ok v →
      updateOp { readErr := some (JsError.app m c d) } store input now
        = (.error (.app m c d), store)) ∧
    removeOp { readErr := some (JsError.app m c d) } store id
      = (.error (.app m c d), store) ∧
    listOp { readErr := some (JsError.app m c d) } store cfg
      = .error (.app "Failed to load tasks" .STORAGE_ERROR (some (.app m c d))) ∧
    (∀ v, validateTaskInput input .create = .ok v →
      createOp { readErr := some (JsError.app m c d) } store input newId now
        = (.error (.app "Failed to save task" .STORAGE_ERROR (some (.app m c d))), store)) := by
  refine ⟨?_, ?_, ?_, ?_⟩
  · intro v hv
    simp [updateOp, hv, wrapUnlessApp]
  · simp [removeOp, wrapUnlessApp]
  · rcases cfg with _ | c0 <;> rfl
  · intro v hv
    simp [createOp, hv]

theorem claim_C9_witness :
    updateOp { readErr := some (JsError.app "w" .STORAGE_ERROR none) }
        [] { title := .str "T", dueDate := .str "2026-01-02T00:00:00.000Z", id := .str "x" } "n"
      = (.error (.app "w" .STORAGE_ERROR none), []) ∧
    removeOp { readErr := some (JsError.app "w" .STORAGE_ERROR none) } [] "x"
      = (.error (.app "w" .STORAGE_ERROR none), []) := by
  have h := claim_C9 []
    { title := .str "T", dueDate := .str "2026-01-02T00:00:00.000Z", id := .str "x" }
    "n" "x" "n2" none "w" .STORAGE_ERROR none
  exact ⟨h.1 _ rfl, h.2.1⟩

/-- C10: when no task has id X but some task lists X among its
dependencies, remove(X) fails with DEPENDENCY_ERROR (naming the blocking
tasks), not NOT_FOUND: the reverse-dependency check runs first. -/
theorem claim_C10 (store : List Task) (X : String)
    (hnoid : ∀ T ∈ store, T.id ≠ X)
    (hdep : ∃ D ∈ store, X ∈ D.dependencies) :
    removeOp {} store X
      = (.error (.app ("Cannot delete: other tasks depend on this task: "
          ++ String.intercalate ", " (getDependentTasks X store)) .DEPENDENCY_ERROR none),
         store) := by
  obtain ⟨D, hD, hXdep⟩ := hdep
  have hmem := mem_getDependentTasks store X D hD hXdep
  have hlen : (getDependentTasks X store).length > 0 :=
    List.length_pos.mpr (List.ne_nil_of_mem hmem)
  unfold removeOp
  simp only []
  rw [if_pos hlen]

/-- A task depending on the (absent) id "x", used as a concrete witness. -/
def demoDependentTask : Task :=
  { id := "a", title := "A", dueDate := "d", dependencies := ["x"] }

theorem claim_C10_witness :
    removeOp {} [demoDependentTask] "x"
      = (.error (.app ("Cannot delete: other tasks depend on this task: "
          ++ String.intercalate ", " (getDependentTasks "x" [demoDependentTask]))
          .DEPENDENCY_ERROR none),
         [demoDependentTask]) :=
  claim_C10 _ "x" (by decide) ⟨_, List.mem_singleton_self _, by decide⟩

/-- C2: remove is blocked with DEPENDENCY_ERROR naming the blocking tasks
(collection unchanged) whenever another task lists the target among its
dependencies; when no task lists it, remove deletes the (first) task with
that id and persists the collection without it, failing NOT_FOUND when no
task has that id. -/
theorem claim_C2 (store : List Task) (P : String) :
    ((∃ D ∈ store, D.id ≠ P ∧ P ∈ D.dependencies) →
      removeOp {} store P
        = (.error (.app ("Cannot delete: other tasks depend on this task: "
            ++ String.intercalate ", " (getDependentTasks P store)) .DEPENDENCY_ERROR none),
           store)) ∧
    ((∀ D ∈ store, P ∉ D.dependencies) →
      (∀ T, store.find? (fun t => t.id = P) = some T →
        ∃ i, store.findIdx? (fun t => t.id = P) = some i ∧ store[i]? = some T ∧
          removeOp {} store P = (.ok true, store.eraseIdx i)) ∧
      (store.find? (fun t => t.id = P) = none →
        removeOp {} store P = (.error (.app "Task not found" .NOT_FOUND none), store))) := by
  constructor
  · rintro ⟨D, hD, -, hXdep⟩
    have hmem := mem_getDependentTasks store P D hD hXdep
    have hlen : (getDependentTasks P store).length > 0 :=
      List.length_pos.mpr (List.ne_nil_of_mem hmem)
    unfold removeOp
    simp only []
    rw [if_pos hlen]
  · intro hno
    have hnil := getDependentTasks_nil store P hno
    constructor
    · intro T hfind
      obtain ⟨i, hidx, hget, -⟩ := find?_some_findIdx? _ store T hfind
      refine ⟨i, hidx, hget, ?_⟩
      unfold removeOp
      rw [hnil]
      simp [hidx]
    · intro hnone
      have hidx := find?_none_findIdx? _ store hnone
      unfold removeOp
      rw [hnil]
      simp [hidx]

theorem claim_C2_witness :
    ∃ i, [demoDependentTask].findIdx? (fun t => t.id = "a") = some i ∧
      [demoDependentTask][i]? = some demoDependentTask ∧
      removeOp {} [demoDependentTask] "a" = (.ok true, [demoDependentTask].eraseIdx i) :=
  ((claim_C2 [demoDependentTask] "a").2 (by decide)).1 demoDependentTask rfl

theorem areDeps_iff (store : List Task) (tid : String) (T : Task)
    (hfind : store.find? (fun t => t.id = tid) = some T) :
    (areDependenciesSatisfied tid store = true ↔
      ∀ dep ∈ T.dependencies, ∃ u ∈ store, u.status = Status.done ∧ u.id = dep) := by
  unfold areDependenciesSatisfied
  simp only [hfind]
  by_cases hlen : T.dependencies.length = 0
  · rw [if_pos hlen]
    have : T.dependencies = [] := List.length_eq_zero.mp hlen
    simp [this]
  · rw [if_neg hlen]
    simp only [List.all_eq_true, List.contains_iff_exists_mem_beq, List.mem_map,
      List.mem_filter]
    constructor
    · intro h dep hdep
      obtain ⟨x, ⟨u, ⟨hu1, hu2⟩, hx⟩, hbeq⟩ := h dep hdep
      refine ⟨u, hu1, by simpa using hu2, ?_⟩
      rw [hx]
      exact (beq_iff_eq.mp hbeq).symm
    · intro h dep hdep
      obtain ⟨u, hu1, hu2, hu3⟩ := h dep hdep
      exact ⟨u.id, ⟨u, ⟨hu1, by simpa using hu2⟩, rfl⟩, by simp [hu3]⟩

/-- C1: an update that moves a task from non-done status to done succeeds
precisely when every id in the stored task's dependencies names a task in
the collection whose status is done (a dangling id counts as
unsatisfied); otherwise it fails with DEPENDENCY_ERROR and leaves the
collection unchanged. -/
theorem claim_C1 (store : List Task) (input : RawInput) (now : String)
    (v : Validated) (T : Task)
    (hv : validateTaskInput input .update = .ok v)
    (hst : v.status = Status.done)
    (hfind : store.find? (fun t => t.id = v.id) = some T)
    (hT : T.status ≠ Status.done) :
    ((∀ dep ∈ T.dependencies, ∃ u ∈ store, u.status = Status.done ∧ u.id = dep) →
      ∃ u st', updateOp {} store input now = (.ok u, st')) ∧
    (¬ (∀ dep ∈ T.dependencies, ∃ u ∈ store, u.status = Status.done ∧ u.id = dep) →
      updateOp {} store input now
        = (.error (.app "Cannot complete task: dependencies not satisfied"
            .DEPENDENCY_ERROR none), store)) := by
  obtain ⟨i, hidx, hget, -⟩ := find?_some_findIdx? _ store T hfind
  have hiff := areDeps_iff store v.id T hfind
  constructor
  · intro hok
    have harea : areDependenciesSatisfied v.id store = true := hiff.mpr hok
    have hcalc : updateOp {} store input now
        = (.ok (mkUpdated v T now), store.set i (mkUpdated v T now)) := by
      unfold updateOp
      simp only [hv, hidx, hget]
      rw [if_neg (by simp [harea])]
    exact ⟨_, _, hcalc⟩
  · intro hbad
    have harea : areDependenciesSatisfied v.id store = false := by
      rcases h : areDependenciesSatisfied v.id store with _ | _
      · rfl
      · exact absurd (hiff.mp h) hbad
    unfold updateOp
    simp only [hv, hidx, hget]
    rw [if_pos ⟨hst, hT, by simp [harea]⟩]

/-- Concrete fixture for the C1 witness: a done prerequisite and a task
depending on it. -/
def demoPrereq : Task := { id := "p", title := "P", dueDate := "d", status := .done }

def demoBlockedTask : Task :=
  { id := "q", title := "Q", dueDate := "d", status := .todo, dependencies := ["p"] }

def demoUpdateInput : RawInput :=
  { title := .str "Q", status := .str "done",
    dueDate := .str "2026-01-02T00:00:00.000Z", id := .str "q" }

theorem claim_C1_witness :
    ∃ u st', updateOp {} [demoPrereq, demoBlockedTask] demoUpdateInput "now1" = (.ok u, st') := by
  refine (claim_C1 [demoPrereq, demoBlockedTask] demoUpdateInput "now1"
    { id := "q", title := "Q", description := "", status := .done, priority := .medium,
      dueDate := "2026-01-02T00:00:00.000Z", tags := [], recurrence := none,
      dependencies := [] }
    demoBlockedTask rfl rfl rfl (by decide)).1 ?_
  intro dep hdep
  refine ⟨demoPrereq, by simp, rfl, ?_⟩
  have : dep = "p" := by
    simpa [demoBlockedTask] using hdep
  simp [this, demoPrereq]

/-- C7: tag normalization is idempotent, and it deduplicates
case-insensitively while preserving insertion order and the (trimmed)
casing of the first occurrence of each tag, as described by
dedupeCaseInsensitiveFirst. -/
theorem claim_C7 (tags : List String) :
    normalizeTags (normalizeTags tags) = normalizeTags tags ∧
    normalizeTags tags = dedupeCaseInsensitiveFirst (tags.map jsTrim) :=
  ⟨normalizeTags_idem tags, normalizeTags_eq_dedupe tags⟩

/-! ## Stable-sort lemmas for C6 -/

theorem jsOrderedInsert_perm (le : Task → Task → Bool) (x : Task) :
    ∀ l : List Task, (jsOrderedInsert le x l).Perm (x :: l) := by
  intro l
  induction l with
  | nil => exact List.Perm.refl _
  | cons y ys ih =>
    unfold jsOrderedInsert
    split_ifs
    · exact List.Perm.refl _
    · exact (List.Perm.cons y ih).trans (List.Perm.swap x y ys)

theorem jsSort_perm (le : Task → Task → Bool) :
    ∀ l : List Task, (jsSort le l).Perm l := by
  intro l
  induction l with
  | nil => exact List.Perm.refl _
  | cons x xs ih =>
    unfold jsSort
    exact (jsOrderedInsert_perm le x (jsSort le xs)).trans (List.Perm.cons x ih)

theorem jsOrderedInsert_congr (le le' : Task → Task → Bool) (x : Task) :
    ∀ l : List Task, (∀ b ∈ l, le x b = le' x b) →
    jsOrderedInsert le x l = jsOrderedInsert le' x l := by
  intro l
  induction l with
  | nil => intro _; rfl
  | cons y ys ih =>
    intro h
    unfold jsOrderedInsert
    rw [h y (List.mem_cons_self _ _)]
    split_ifs
    · rfl
    · rw [ih (fun b hb => h b (List.mem_cons_of_mem _ hb))]

theorem jsSort_congr (le le' : Task → Task → Bool) :
    ∀ l : List Task, (∀ a ∈ l, ∀ b ∈ l, le a b = le' a b) →
    jsSort le l = jsSort le' l := by
  intro l
  induction l with
  | nil => intro _; rfl
  | cons x xs ih =>
    intro h
    unfold jsSort
    rw [ih (fun a ha b hb => h a (List.mem_cons_of_mem _ ha) b (List.mem_cons_of_mem _ hb))]
    apply jsOrderedInsert_congr
    intro b hb
    have hb' : b ∈ xs := (jsSort_perm le' xs).mem_iff.mp hb
    exact h x (List.mem_cons_self _ _) b (List.mem_cons_of_mem _ hb')

theorem jsOrderedInsert_pairwise (le : Task → Task → Bool)
    (htot : ∀ a b, le a b = true ∨ le b a = true)
    (htrans : ∀ a b c, le a b = true → le b c = true → le a c = true)
    (x : Task) : ∀ l : List Task, l.Pairwise (fun a b => le a b = true) →
    (jsOrderedInsert le x l).Pairwise (fun a b => le a b = true) := by
  intro l
  induction l with
  | nil => intro _; simp [jsOrderedInsert]
  | cons y ys ih =>
    intro h
    rw [List.pairwise_cons] at h
    unfold jsOrderedInsert
    split_ifs with hxy
    · rw [List.pairwise_cons]
      refine ⟨?_, List.pairwise_cons.mpr h⟩
      intro z hz
      rcases List.mem_cons.mp hz with rfl | hz'
      · exact hxy
      · exact htrans x y z hxy (h.1 z hz')
    · rw [List.pairwise_cons]
      refine ⟨?_, ih h.2⟩
      intro z hz
      have hz2 : z = x ∨ z ∈ ys :=
        List.mem_cons.mp ((jsOrderedInsert_perm le x ys).mem_iff.mp hz)
      rcases hz2 with rfl | hz'
      · rcases htot z y with h1 | h1
        · exact absurd h1 hxy
        · exact h1
      · exact h.1 z hz'

theorem jsSort_pairwise (le : Task → Task → Bool)
    (htot : ∀ a b, le a b = true ∨ le b a = true)
    (htrans : ∀ a b c, le a b = true → le b c = true → le a c = true) :
    ∀ l : List Task, (jsSort le l).Pairwise (fun a b => le a b = true) := by
  intro l
  induction l with
  | nil => simp [jsSort]
  | cons x xs ih =>
    unfold jsSort
    exact jsOrderedInsert_pairwise le htot htrans x _ ih

/-! ## Claim C6: default list ordering -/

/-- The parsed due-date timestamp of a task (0 when unparseable). -/
def dueMs (t : Task) : Int := (isoParse t.dueDate).getD 0

/-- The default list() sort configuration: due date ascending. -/
def defaultSortConfig : TaskSortConfig := { field := .dueDate, direction := .asc }

theorem cmp_default_eq (a b : Task) (ha : (isoParse a.dueDate).isSome)
    (hb : (isoParse b.dueDate).isSome) :
    cmpTasks defaultSortConfig a b = dueMs a - dueMs b := by
  rcases Option.isSome_iff_exists.mp ha with ⟨x, hx⟩
  rcases Option.isSome_iff_exists.mp hb with ⟨y, hy⟩
  simp [cmpTasks, defaultSortConfig, dueMs, hx, hy]

/-- A task with an early due date but low priority and late title, listed
first. -/
def ceTaskLow : Task :=
  { id := "t1", title := "b", priority := .low,
    dueDate := "2026-01-01T00:00:00.000Z" }

/-- A task with the same due date but high priority and early title, listed
second. -/
def ceTaskHigh : Task :=
  { id := "t2", title := "a", priority := .high,
    dueDate := "2026-01-01T00:00:00.000Z" }

/-- C6: the claim that the default list() ordering breaks due-date ties by
priority rank and then by title is wrong: sortTasks with the DUE_DATE field
compares only the parsed due dates, so equal due dates keep their storage
order (Array.prototype.sort is stable). Here the low-priority,
later-titled task stays first despite the claimed tie-breaks. -/
theorem claim_C6_counterexample :
    listOp {} [ceTaskLow, ceTaskHigh] none = .ok [ceTaskLow, ceTaskHigh] ∧
    ceTaskLow.dueDate = ceTaskHigh.dueDate ∧
    priorityRank ceTaskHigh.priority < priorityRank ceTaskLow.priority := by
  refine ⟨rfl, rfl, by decide⟩

/-- Inserting x by a key order places it before exactly the equal-keyed
elements it should precede: the subsequence with any fixed key k equals
that of x :: l, because every element passed over has a strictly smaller
key, hence key ≠ k whenever x has key k. -/
theorem jsOrderedInsert_filter_key (f : Task → Int) (k : Int) (x : Task) :
    ∀ l : List Task,
      (jsOrderedInsert (fun a b => decide (f a ≤ f b)) x l).filter
          (fun t => decide (f t = k))
        = (x :: l).filter (fun t => decide (f t = k)) := by
  intro l
  induction l with
  | nil => rfl
  | cons y ys ih =>
    unfold jsOrderedInsert
    split_ifs with hxy
    · rfl
    · simp only [List.filter_cons, ih]
      by_cases hx : f x = k
      · have hy : ¬ f y = k := by
          simp only [decide_eq_true_eq] at hxy
          omega
        simp [hx, hy]
      · simp [hx]

/-- Stability of the modelled Array.prototype.sort under a key order: the
subsequence of elements with any fixed key is unchanged, i.e. elements
comparing equal keep their input order. -/
theorem jsSort_filter_key (f : Task → Int) (k : Int) :
    ∀ l : List Task,
      (jsSort (fun a b => decide (f a ≤ f b)) l).filter
          (fun t => decide (f t = k))
        = l.filter (fun t => decide (f t = k)) := by
  intro l
  induction l with
  | nil => rfl
  | cons x xs ih =>
    unfold jsSort
    rw [jsOrderedInsert_filter_key]
    simp only [List.filter_cons, ih]

/-- C6 (amended): with no sort config, list() returns the task collection
stably sorted by parsed due date ascending alone: the result is a
permutation of storage that is pairwise non-decreasing in due-date
timestamp (when every stored due date parses), and for every due-date
key the subsequence of tasks with that key is exactly the storage
subsequence — ties keep their storage order, with no priority or title
tie-breaks. -/
theorem claim_C6 (store : List Task)
    (hparse : ∀ t ∈ store, (isoParse t.dueDate).isSome) :
    ∃ l, listOp {} store none = .ok l ∧ l.Perm store ∧
      l.Pairwise (fun a b => dueMs a ≤ dueMs b) ∧
      ∀ k : Int, l.filter (fun t => decide (dueMs t = k))
        = store.filter (fun t => decide (dueMs t = k)) := by
  have hcong : sortTasks store defaultSortConfig =
      jsSort (fun a b => decide (dueMs a ≤ dueMs b)) store := by
    apply jsSort_congr
    intro a ha b hb
    have hc := cmp_default_eq a b (hparse a ha) (hparse b hb)
    exact decide_eq_decide.mpr (by rw [hc]; omega)
  refine ⟨sortTasks store defaultSortConfig, rfl, jsSort_perm _ store, ?_, ?_⟩
  · rw [hcong]
    have hp := jsSort_pairwise (fun a b => decide (dueMs a ≤ dueMs b))
      (fun a b => by rcases le_total (dueMs a) (dueMs b) with h | h <;> simp [h])
      (fun a b c hab hbc => by
        simp only [decide_eq_true_eq] at hab hbc ⊢
        exact le_trans hab hbc) store
    exact hp.imp (fun h => of_decide_eq_true h)
  · intro k
    rw [hcong]
    exact jsSort_filter_key dueMs k store

theorem claim_C6_witness :
    (∀ t ∈ [ceTaskLow, ceTaskHigh], (isoParse t.dueDate).isSome) ∧
    ∃ l, listOp {} [ceTaskLow, ceTaskHigh] none = .ok l ∧
      l.Perm [ceTaskLow, ceTaskHigh] ∧
      l.Pairwise (fun a b => dueMs a ≤ dueMs b) ∧
      ∀ k : Int, l.filter (fun t => decide (dueMs t = k))
        = [ceTaskLow, ceTaskHigh].filter (fun t => decide (dueMs t = k)) :=
  ⟨by decide, claim_C6 [ceTaskLow, ceTaskHigh] (by decide)⟩

/-! ## Claim C3: next occurrence of a recurring task -/

/-- A monthly-recurring task due on a month-end day (Jan 31). -/
def ceMonthlyTask : Task :=
  { id := "m1", title := "M", dueDate := "2026-01-31T00:00:00.000Z",
    recurrence := some { frequency := .monthly } }

/-- A daily-recurring task. -/
def ceDailyTask : Task :=
  { id := "d1", title := "D", dueDate := "2026-01-01T00:00:00.000Z",
    recurrence := some { frequency := .daily } }

/-- C3: the claim of "automatic month-end clamping" for monthly recurrence
is wrong. setMonth(getMonth() + 1) keeps the day-of-month number, so a
Jan 31 due date rolls past the end of February to March 3 (2026 is not a
leap year) instead of clamping to Feb 28. -/
theorem claim_C3_counterexample :
    calculateNextOccurrence ceMonthlyTask = some "2026-03-03T00:00:00.000Z" ∧
    ("2026-03-03T00:00:00.000Z" : String) ≠ "2026-02-28T00:00:00.000Z" :=
  ⟨rfl, by decide⟩

/-- C3 (amended): for a recurring task whose due date parses to time value
t, calculateNextOccurrence returns none when the recurrence has ended
(endDate present and t at or past it); otherwise it returns the due date
advanced by exactly one period: +1 day (daily), +7 days (weekly),
+daysInterval days (custom), and for monthly the same day-of-month number
in the next calendar month with NO clamping, so a day number past the next
month's end rolls into the following month. It reads only the task and
never touches the collection (it is a pure function of the task). -/
theorem claim_C3 (task : Task) (rec : Recurrence) (t : Int)
    (hrec : task.recurrence = some rec)
    (ht : isoParse task.dueDate = some t) :
    (recurrenceEnded rec t = true → calculateNextOccurrence task = none) ∧
    (recurrenceEnded rec t = false →
      (rec.frequency = .daily →
        calculateNextOccurrence task = some (isoRender (t + msPerDay))) ∧
      (rec.frequency = .weekly →
        calculateNextOccurrence task = some (isoRender (t + 7 * msPerDay))) ∧
      (rec.frequency = .custom →
        calculateNextOccurrence task
          = some (isoRender (t + rec.daysInterval * msPerDay))) ∧
      (rec.frequency = .monthly →
        calculateNextOccurrence task
          = some (isoRender
              ((if (civilFromDays (jsDay t)).2.1 = 12
                then daysFromCivil ((civilFromDays (jsDay t)).1 + 1) 1
                       (civilFromDays (jsDay t)).2.2
                else daysFromCivil (civilFromDays (jsDay t)).1
                       ((civilFromDays (jsDay t)).2.1 + 1)
                       (civilFromDays (jsDay t)).2.2) * msPerDay
                + jsTimeWithinDay t)))) := by
  constructor
  · intro hend
    unfold calculateNextOccurrence
    rw [hrec, ht]
    simp [hend]
  · intro hend
    refine ⟨?_, ?_, ?_, ?_⟩ <;> intro hfreq <;>
      · unfold calculateNextOccurrence
        rw [hrec, ht]
        simp only [hend, if_false, hfreq]
        first
          | (rw [jsSetMonth_next]; norm_num)
          | (rw [jsSetDate_shift]; norm_num)

theorem claim_C3_witness :
    calculateNextOccurrence ceDailyTask = some "2026-01-02T00:00:00.000Z" := by
  have h := ((claim_C3 ceDailyTask { frequency := .daily } 1767225600000 rfl rfl).2
    rfl).1 rfl
  rw [h]
  rfl

/-! ## Claim C5: parseDateInputToISO -/

theorem daysInMonth_bounds (y m : Int) :
    28 ≤ daysInMonth y m ∧ daysInMonth y m ≤ 31 := by
  unfold daysInMonth
  split_ifs <;> omega

theorem jsDay_mul (k : Int) : jsDay (k * msPerDay) = k := by
  unfold jsDay msPerDay
  omega

/-- The civil year survives a day-of-month up to 31: an out-of-range day
rolls into the next month but (months having at least 28 days) not past
it, and December's 31 days never overflow, so the year is preserved. -/
theorem civil_year_of_day31 (yv m d : Int) (hm1 : 1 ≤ m) (hm2 : m ≤ 12)
    (hd1 : 1 ≤ d) (hd2 : d ≤ 31) :
    (civilFromDays (daysFromCivil yv m d)).1 = yv := by
  by_cases hle : d ≤ daysInMonth yv m
  · rw [civil_roundtrip yv m d hm1 hm2 hd1 hle]
  · have hdm := daysInMonth_bounds yv m
    have hdm' := daysInMonth_bounds yv (m + 1)
    have hm12 : m ≠ 12 := by
      intro h
      subst h
      have h31 : daysInMonth yv 12 = 31 := by unfold daysInMonth; norm_num
      omega
    have hO := daysFromCivil_month_overflow yv m (d - daysInMonth yv m) hm1 hm2
    rw [if_neg hm12] at hO
    have hdd : daysInMonth yv m + (d - daysInMonth yv m) = d := by ring
    rw [hdd] at hO
    rw [hO, civil_roundtrip yv (m + 1) _ (by omega) (by omega) (by omega) (by omega)]

/-- Crude size bound: dates with a four-digit-or-smaller year stay far
inside the ECMAScript TimeClip day range. -/
theorem daysFromCivil_small (y m d : Int) (hy1 : -10000 ≤ y) (hy2 : y ≤ 10000)
    (hm1 : 1 ≤ m) (hm2 : m ≤ 12) (hd1 : -100 ≤ d) (hd2 : d ≤ 100) :
    -100000000 ≤ daysFromCivil y m d ∧ daysFromCivil y m d ≤ 100000000 := by
  unfold daysFromCivil doeOf doyFromMp
  dsimp only
  split_ifs <;> omega

/-- C5: two failures of the claim. "0050-01-01" is a well-formed
YYYY-MM-DD string naming an existing calendar date (Jan 1 of year 50),
yet parseDateInputToISO returns none: the Date(year, ...) constructor
maps years 0..99 to 1900+year, so the round-trip check compares 1950
with 50 and fails. And "2026-2-28" is not in YYYY-MM-DD form, yet
parses successfully (split on "-" plus Number() accepts loose digit
counts). -/
theorem claim_C5_counterexample :
    parseDateInputToISO "0050-01-01" = none ∧
    jsSplit '-' "0050-01-01" = ["0050", "01", "01"] ∧
    jsNumberInt "0050" = some 50 ∧ jsNumberInt "01" = some 1 ∧
    daysInMonth 50 1 = 31 ∧
    parseDateInputToISO "2026-2-28"
      = some "2026-02-28T00:00:00.000Z" := by
  refine ⟨rfl, rfl, rfl, rfl, rfl, rfl⟩


/-- C5 (amended): parseDateInputToISO accepts any non-empty input that
splits on "-" into exactly three Number()-numeric parts (not only strict
YYYY-MM-DD). Soundness: every successful parse comes from such parts
(y, m, d) naming an existing calendar date, and the output timestamp's
calendar components round-trip to exactly (y, m, d). Completeness: parts
naming an existing calendar date succeed when 100 ≤ y ≤ 9999, but a year
0..99 is remapped to 1900+y by the Date constructor, so the round-trip
check fails and the parse returns none even for an existing date. -/
theorem claim_C5 :
    (∀ s out, parseDateInputToISO s = some out →
      ∃ p0 p1 p2 y m d, jsSplit '-' s = [p0, p1, p2] ∧
        jsNumberInt p0 = some y ∧ jsNumberInt p1 = some m ∧
        jsNumberInt p2 = some d ∧
        1 ≤ m ∧ m ≤ 12 ∧ 1 ≤ d ∧ d ≤ daysInMonth y m ∧
        out = isoRender (daysFromCivil y m d * msPerDay) ∧
        (civilFromDays (jsDay (daysFromCivil y m d * msPerDay))).1 = y ∧
        (civilFromDays (jsDay (daysFromCivil y m d * msPerDay))).2.1 = m ∧
        (civilFromDays (jsDay (daysFromCivil y m d * msPerDay))).2.2 = d) ∧
    (∀ s p0 p1 p2 y m d, s ≠ "" → jsSplit '-' s = [p0, p1, p2] →
      jsNumberInt p0 = some y → jsNumberInt p1 = some m →
      jsNumberInt p2 = some d →
      1 ≤ m → m ≤ 12 → 1 ≤ d → d ≤ daysInMonth y m →
      ((0 ≤ y ∧ y ≤ 99) → parseDateInputToISO s = none) ∧
      (100 ≤ y → y ≤ 9999 →
        parseDateInputToISO s
          = some (isoRender (daysFromCivil y m d * msPerDay)))) := by
  constructor
  · intro s out h
    unfold parseDateInputToISO at h
    by_cases hse : s = ""
    · rw [if_pos hse] at h
      exact absurd h (by simp)
    rw [if_neg hse] at h
    rcases hsp : jsSplit '-' s with _ | ⟨p0, tl0⟩
    · rw [hsp] at h; exact absurd h (by simp)
    rcases tl0 with _ | ⟨p1, tl1⟩
    · rw [hsp] at h; exact absurd h (by simp)
    rcases tl1 with _ | ⟨p2, tl2⟩
    · rw [hsp] at h; exact absurd h (by simp)
    rcases tl2 with _ | ⟨p3, tl3⟩
    swap
    · rw [hsp] at h; exact absurd h (by simp)
    rw [hsp] at h
    dsimp only at h
    rcases hy : jsNumberInt p0 with _ | y
    · rw [hy] at h; exact absurd h (by simp)
    rcases hm : jsNumberInt p1 with _ | m
    · rw [hy, hm] at h; exact absurd h (by simp)
    rcases hd : jsNumberInt p2 with _ | d
    · rw [hy, hm, hd] at h; exact absurd h (by simp)
    rw [hy, hm, hd] at h
    dsimp only at h
    set Y : Int := if 0 ≤ y ∧ y ≤ 99 then y + 1900 else y with hY
    split_ifs at h with hrange hchk
    have hout := ((Option.some.injEq _ _).mp h).symm
    have hv := civilFromDays_valid (jsMakeDay Y (m - 1) d)
    have hinv := days_civil_inverse (jsMakeDay Y (m - 1) d)
    obtain ⟨hc1, hc2, hc3⟩ := hchk
    have hc2' : (civilFromDays (jsMakeDay Y (m - 1) d)).2.1 = m := by omega
    rw [hc1, hc2', hc3] at hinv
    rw [hc1, hc2'] at hv
    refine ⟨p0, p1, p2, y, m, d, rfl, hy, hm, hd,
      hv.1, hv.2.1, ?_, ?_, ?_, ?_, ?_, ?_⟩
    · rw [← hc3]; exact hv.2.2.1
    · rw [← hc3]; exact hv.2.2.2
    · rw [hout, hinv]
    · rw [hinv, jsDay_mul]; exact hc1
    · rw [hinv, jsDay_mul]; exact hc2'
    · rw [hinv, jsDay_mul]; exact hc3
  · intro s p0 p1 p2 y m d hne hsp hy0 hy1 hy2 hm1 hm2 hd1 hd2
    have hdm := daysInMonth_bounds y m
    constructor
    · intro hy99
      unfold parseDateInputToISO
      rw [if_neg hne, hsp]
      dsimp only
      rw [hy0, hy1, hy2]
      dsimp only
      rw [if_pos hy99]
      rw [jsMakeDay_inRange _ _ _ (by omega) (by omega)]
      have hmm : m - 1 + 1 = m := by ring
      rw [hmm]
      by_cases hr : daysFromCivil (y + 1900) m d * msPerDay < -8640000000000000 ∨
          8640000000000000 < daysFromCivil (y + 1900) m d * msPerDay
      · rw [if_pos hr]
      · rw [if_neg hr]
        have hyr := civil_year_of_day31 (y + 1900) m d hm1 hm2 hd1 (by omega)
        rw [if_neg ?_]
        intro hand
        rw [hyr] at hand
        omega
    · intro hy100 hy9999
      unfold parseDateInputToISO
      rw [if_neg hne, hsp]
      dsimp only
      rw [hy0, hy1, hy2]
      dsimp only
      rw [if_neg (show ¬(0 ≤ y ∧ y ≤ 99) by omega)]
      rw [jsMakeDay_inRange _ _ _ (by omega) (by omega)]
      have hmm : m - 1 + 1 = m := by ring
      rw [hmm]
      have hb := daysFromCivil_small y m d (by omega) (by omega) hm1 hm2
        (by omega) (by omega)
      rw [if_neg (show ¬(daysFromCivil y m d * msPerDay < -8640000000000000 ∨
        8640000000000000 < daysFromCivil y m d * msPerDay) by unfold msPerDay; omega)]
      rw [civil_roundtrip y m d hm1 hm2 hd1 hd2]
      norm_num

theorem claim_C5_witness :
    parseDateInputToISO "2026-2-28"
      = some (isoRender (daysFromCivil 2026 2 28 * msPerDay)) :=
  (claim_C5.2 "2026-2-28" "2026" "2" "28" 2026 2 28 (by decide) rfl rfl rfl rfl
    (by norm_num) (by norm_num) (by norm_num) (by decide)).2
    (by norm_num) (by norm_num)

end TaskMgr
